import Mathlib

/-! qumine-ingress: the control API (`api/api.go`).

A shallow embedding of the package `api`: the two request handlers `getHealthz` and
`getRoutes`, the endpoint table built by `NewAPI`, and the lifecycle of `Start`.

Conventions of the embedding.

* A Go `string` is a finite sequence of bytes; it is a `List Nat` here (every byte is
  below 256). String literals of the source are written `lit "..."`.
* A Go `map[string]string` is an association list read by key (`GoMap.get`), written by key
  (`GoMap.set`); `range` over it may enumerate the keys in any order.
* The package-level variables `k` and `s`, the collaborators they point to and the routing
  table of package `server` form the `World`; a handler runs on a `HandlerState`, the world
  together with its `http.ResponseWriter` and the log.
* `json.Marshal` is an argument of the handlers wherever only its success or failure
  matters, and is the encoder `Marshal` or `MarshalMappings` where the bytes matter; what
  its text stands for is read back by `decodeObject` and `UnmarshalMappings`.
-/

namespace Api

/-! ## Go strings -/

/-- A Go string: its bytes. -/
abbrev GoString := List Nat

/-- The function `utf8.EncodeRune`: the UTF-8 bytes of a code point; a surrogate or a value
above U+10FFFF is written as U+FFFD. -/
def encodeRune (r : Nat) : GoString :=
  if r < 0x80 then [r]
  else if r < 0x800 then [0xC0 + r / 64, 0x80 + r % 64]
  else if 0xD800 ≤ r ∧ r < 0xE000 then [0xEF, 0xBF, 0xBD]
  else if r < 0x10000 then [0xE0 + r / 4096, 0x80 + (r / 64) % 64, 0x80 + r % 64]
  else if r < 0x110000 then
    [0xF0 + r / 262144, 0x80 + (r / 4096) % 64, 0x80 + (r / 64) % 64, 0x80 + r % 64]
  else [0xEF, 0xBF, 0xBD]

/-- A string literal of the source, as the bytes the Go compiler stores for it. -/
def lit (s : String) : GoString := (s.toList.map (fun c => encodeRune c.toNat)).flatten

/-! ## Go maps with string keys and string values -/

/-- A `map[string]string`: the entries, at most one of which is read for a key. -/
abbrev GoMap := List (GoString × GoString)

namespace GoMap

/-- The expression `make(map[string]string)`. -/
def empty : GoMap := []

/-- The expression `m[key]`: the value stored for `key`, the zero value `""` when there is
none. -/
def get (m : GoMap) (key : GoString) : GoString :=
  match m.find? (fun e => e.1 == key) with
  | some e => e.2
  | none => []

/-- The statement `m[key] = value`. -/
def set : GoMap → GoString → GoString → GoMap
  | [], key, value => [(key, value)]
  | e :: m, key, value => if e.1 = key then (key, value) :: m else e :: set m key value

/-- The keys of the map, each once. -/
def keys (m : GoMap) : List GoString := (m.map Prod.fst).dedup

end GoMap

/-- What `for key := range m` may do: it visits every key of `m` once, in an order the
runtime picks. A `RangeOrder` is one such pick for every map. -/
def RangeOrder (range : GoMap → List GoString) : Prop :=
  ∀ m : GoMap, (range m).Perm m.keys

/-! ## The aggregation loop of `getHealthz` (lines 86-95) -/

/-- One pass through the body of the loop, for `key`: `case "up": continue` leaves `status`
as it is and goes on with the next key; `default: status = "down"; break` sets it and leaves
the `switch` only, so the loop goes on with the next key as well. -/
def healthStep (details : GoMap) (status : GoString) (key : GoString) : GoString :=
  if details.get key = lit "up" then status else lit "down"

/-- The loop `status := "up"; for key := range details { ... }`, the keys visited in
`order`. -/
def healthLoop (details : GoMap) (order : List GoString) : GoString :=
  order.foldl (healthStep details) (lit "up")

/-! ## Collaborators, package state and the response writer -/

/-- The cluster watcher `k8s.K8S`, as far as this package reads it. -/
structure K8S where
  Status : GoString
  deriving DecidableEq, Repr

/-- The dispatch server `server.Server`, as far as this package reads it. -/
structure Server where
  Status : GoString
  deriving DecidableEq, Repr

/-- The state the handlers read: the package variables `k` and `s` (`none` is the nil
pointer, `some c` a pointer to a collaborator whose fields are `c` right now) and the
routing table kept by package `server`, of a type `M` this package does not fix. -/
structure World (M : Type) where
  k : Option K8S
  s : Option Server
  mappings : M

/-- Modelled from the spec: the accessor `server.GetMappings` of package `server`, which is
not part of the sources at hand; it returns the routing table as it is at the call and has
no effect. It is called on the package, not on the pointer `s`. -/
def GetMappings {M : Type} (w : World M) : M := w.mappings

/-- An `http.ResponseWriter`: the status line once it is written, and the body so far. -/
structure ResponseWriter where
  status : Option Nat
  body : GoString
  deriving DecidableEq, Repr

/-- The writer a handler is given for a new request. -/
def ResponseWriter.fresh : ResponseWriter := ⟨none, []⟩

/-- The constant `http.StatusOK`. -/
def StatusOK : Nat := 200
/-- The constant `http.StatusInternalServerError`. -/
def StatusInternalServerError : Nat := 500
/-- The constant `http.StatusServiceUnavailable`. -/
def StatusServiceUnavailable : Nat := 503

/-- The method `WriteHeader`: it fixes the status code, unless the header is already out. -/
def ResponseWriter.WriteHeader (w : ResponseWriter) (code : Nat) : ResponseWriter :=
  match w.status with
  | none => { w with status := some code }
  | some _ => w

/-- The method `Write`: it sends the header with `http.StatusOK` if none was written, then
appends to the body. -/
def ResponseWriter.Write (w : ResponseWriter) (bytes : GoString) : ResponseWriter :=
  { status := some (w.status.getD StatusOK), body := w.body ++ bytes }

/-- The response the client gets: when the handler wrote no header, the server sends
`http.StatusOK`. -/
structure Response where
  code : Nat
  body : GoString
  deriving DecidableEq, Repr

/-- The response sent once the handler is done with the writer. -/
def ResponseWriter.finish (w : ResponseWriter) : Response :=
  ⟨w.status.getD StatusOK, w.body⟩

/-- A Go `error`: its message. -/
abbrev GoError := GoString

/-- A line logged through `logrus` at level error: the message and the attached error. -/
structure LogEntry where
  msg : GoString
  err : GoError
  deriving DecidableEq, Repr

/-- What a handler runs on. -/
structure HandlerState (M : Type) where
  world : World M
  writer : ResponseWriter
  log : List LogEntry

/-- How a handler ends: it returns, or it panics (a nil pointer is read). -/
inductive Completion where
  | returned
  | panicked
  deriving DecidableEq, Repr

/-- The call `logrus.WithError(err).Error(msg)`. -/
def logError {M : Type} (st : HandlerState M) (err : GoError) (msg : GoString) :
    HandlerState M :=
  { st with log := st.log ++ [⟨msg, err⟩] }

/-- The call `writer.WriteHeader(code)`. -/
def writeHeader {M : Type} (st : HandlerState M) (code : Nat) : HandlerState M :=
  { st with writer := st.writer.WriteHeader code }

/-- The call `writer.Write(bytes)`. -/
def write {M : Type} (st : HandlerState M) (bytes : GoString) : HandlerState M :=
  { st with writer := st.writer.Write bytes }

/-! ## The handlers -/

/-- The struct `healthz` (lines 113-116). -/
structure healthz where
  Status : GoString
  Details : GoMap
  deriving DecidableEq, Repr

/-- The map `details` of `getHealthz` after lines 82-84. -/
def healthzDetails (a b : GoString) : GoMap :=
  (GoMap.empty.set (lit "k8s") a).set (lit "server") b

/-- The value `getHealthz` hands to `json.Marshal` when the watcher reports `a` and the
dispatch server `b`. -/
def healthzValue (range : GoMap → List GoString) (a b : GoString) : healthz :=
  { Status := healthLoop (healthzDetails a b) (range (healthzDetails a b)),
    Details := healthzDetails a b }

/-- The handler `getHealthz` (lines 81-111). `marshal` is `json.Marshal` at `*healthz`,
`range` the order in which the runtime enumerates a map. -/
def getHealthz {M : Type} (marshal : healthz → Except GoError GoString)
    (range : GoMap → List GoString) (st : HandlerState M) : HandlerState M × Completion :=
  match st.world.k with
  | none => (st, .panicked)
  | some kc =>
    let details := GoMap.empty.set (lit "k8s") kc.Status
    match st.world.s with
    | none => (st, .panicked)
    | some sc =>
      let details := details.set (lit "server") sc.Status
      let status := healthLoop details (range details)
      match marshal { Status := status, Details := details } with
      | .error err =>
        (writeHeader (logError st err (lit "marchaling healthz failed"))
          StatusInternalServerError, .returned)
      | .ok bytes =>
        let st := if status = lit "down" then writeHeader st StatusServiceUnavailable else st
        (write st bytes, .returned)

/-- The handler `getRoutes` (lines 70-79). `marshal` is `json.Marshal` at the type of the
routing table. -/
def getRoutes {M : Type} (marshal : M → Except GoError GoString) (st : HandlerState M) :
    HandlerState M × Completion :=
  let mappings := GetMappings st.world
  match marshal mappings with
  | .error err =>
    (writeHeader (logError st err (lit "marchaling mappings failed"))
      StatusInternalServerError, .returned)
  | .ok bytes => (write st bytes, .returned)

/-- A request served by `handler` in the world `w`: the handler gets a fresh writer. -/
def serve {M : Type} (handler : HandlerState M → HandlerState M × Completion) (w : World M) :
    HandlerState M × Completion :=
  handler { world := w, writer := ResponseWriter.fresh, log := [] }

/-- The response of a request served by `handler` in the world `w`; there is none when the
handler panics. -/
def respond {M : Type} (handler : HandlerState M → HandlerState M × Completion)
    (w : World M) : Option Response :=
  match serve handler w with
  | (st, .returned) => some st.writer.finish
  | (_, .panicked) => none

/-! ## The encoder `json.Marshal` of `encoding/json`

The encoder at the two types the handlers use it at: strings are quoted by `appendString`
with HTML escaping on, the fields of a struct come in the order of their declaration under
the names of their tags, the keys of a map come sorted. -/

/-- The function `utf8.DecodeRuneInString`: the code point at the start of the string and
the number of bytes it takes; `(0xFFFD, 1)` when the bytes there are no UTF-8 (also
`(0xFFFD, 0)` on the empty string). -/
def decodeRune : GoString → Nat × Nat
  | [] => (0xFFFD, 0)
  | b0 :: rest =>
    if b0 < 0x80 then (b0, 1)
    else if 0xC2 ≤ b0 ∧ b0 ≤ 0xDF then
      match rest with
      | b1 :: _ =>
        if 0x80 ≤ b1 ∧ b1 ≤ 0xBF then ((b0 - 0xC0) * 64 + (b1 - 0x80), 2) else (0xFFFD, 1)
      | _ => (0xFFFD, 1)
    else if 0xE0 ≤ b0 ∧ b0 ≤ 0xEF then
      match rest with
      | b1 :: b2 :: _ =>
        if (if b0 = 0xE0 then 0xA0 else 0x80) ≤ b1 ∧
            b1 ≤ (if b0 = 0xED then 0x9F else 0xBF) ∧ 0x80 ≤ b2 ∧ b2 ≤ 0xBF then
          ((b0 - 0xE0) * 4096 + (b1 - 0x80) * 64 + (b2 - 0x80), 3)
        else (0xFFFD, 1)
      | _ => (0xFFFD, 1)
    else if 0xF0 ≤ b0 ∧ b0 ≤ 0xF4 then
      match rest with
      | b1 :: b2 :: b3 :: _ =>
        if (if b0 = 0xF0 then 0x90 else 0x80) ≤ b1 ∧
            b1 ≤ (if b0 = 0xF4 then 0x8F else 0xBF) ∧
            0x80 ≤ b2 ∧ b2 ≤ 0xBF ∧ 0x80 ≤ b3 ∧ b3 ≤ 0xBF then
          ((b0 - 0xF0) * 262144 + (b1 - 0x80) * 4096 + (b2 - 0x80) * 64 + (b3 - 0x80), 4)
        else (0xFFFD, 1)
      | _ => (0xFFFD, 1)
    else (0xFFFD, 1)

/-- The digit `"0123456789abcdef"[n]`. -/
def hexDigit (n : Nat) : Nat := if n < 10 then 48 + n else 87 + n

/-- The table `htmlSafeSet`: the ASCII bytes `appendString` copies as they are. -/
def htmlSafe (b : Nat) : Bool :=
  0x20 ≤ b && b < 0x80 && b != 34 && b != 38 && b != 60 && b != 62 && b != 92

/-- The encoder behind `json.Marshal`, which the toolchain picks: the one before Go 1.22,
the one from Go 1.22 on, and the one built on `encoding/json/v2`. They differ in how a
backspace, a form feed and a byte that is not UTF-8 are written. -/
inductive Encoder where
  | go121
  | go122
  | jsonv2
  deriving DecidableEq, Repr

/-- Backspace and form feed have the short forms `\b` and `\f`; before Go 1.22 they are
written with `\u00`. -/
def Encoder.shortForms : Encoder → Bool
  | .go121 => false
  | _ => true

/-- What is written for a byte that is not UTF-8: U+FFFD itself in the encoder built on
`encoding/json/v2`, the escape `\ufffd` in the others. -/
def Encoder.replacement : Encoder → GoString
  | .jsonv2 => [0xEF, 0xBF, 0xBD]
  | _ => lit "\\ufffd"

/-- What `appendString` writes for an ASCII byte. -/
def escapeByte (v : Encoder) (b : Nat) : GoString :=
  if htmlSafe b then [b]
  else if b = 92 ∨ b = 34 then [92, b]
  else if b = 8 ∧ v.shortForms = true then lit "\\b"
  else if b = 12 ∧ v.shortForms = true then lit "\\f"
  else if b = 10 then lit "\\n"
  else if b = 13 then lit "\\r"
  else if b = 9 then lit "\\t"
  else lit "\\u00" ++ [hexDigit (b / 16), hexDigit (b % 16)]

/-- The loop of `appendString` over the bytes still to encode; `fuel` bounds the number of
passes, and the length of the string is enough. -/
def appendStringLoop (v : Encoder) : Nat → GoString → GoString
  | 0, _ => []
  | _ + 1, [] => []
  | fuel + 1, b :: rest =>
    if b < 0x80 then escapeByte v b ++ appendStringLoop v fuel rest
    else
      let c := (decodeRune (b :: rest)).1
      let size := (decodeRune (b :: rest)).2
      if c = 0xFFFD ∧ size = 1 then v.replacement ++ appendStringLoop v fuel rest
      else if c = 0x2028 ∨ c = 0x2029 then
        lit "\\u202" ++ [hexDigit (c % 16)] ++ appendStringLoop v fuel (rest.drop (size - 1))
      else (b :: rest).take size ++ appendStringLoop v fuel (rest.drop (size - 1))

/-- The function `appendString` with `escapeHTML` set: the JSON string for a Go string. -/
def appendString (v : Encoder) (src : GoString) : GoString :=
  [34] ++ appendStringLoop v src.length src ++ [34]

/-- The order of Go strings, byte by byte. -/
def strLe : GoString → GoString → Bool
  | [], _ => true
  | _ :: _, [] => false
  | a :: as, b :: bs => a < b || (a == b && strLe as bs)

/-- A key put at its place in a sorted list of keys. -/
def insertKey (key : GoString) : List GoString → List GoString
  | [] => [key]
  | x :: xs => if strLe key x then key :: x :: xs else x :: insertKey key xs

/-- The keys in the order in which the encoder writes the members of a map. -/
def sortKeys (keys : List GoString) : List GoString :=
  keys.foldr insertKey []

/-- The pieces joined with commas. -/
def joinComma : List GoString → GoString
  | [] => []
  | [x] => x
  | x :: y :: rest => x ++ [44] ++ joinComma (y :: rest)

/-- A member of a JSON object: the name as a JSON string, a colon, the text of the value. -/
def jsonMember (v : Encoder) (name : GoString) (value : GoString) : GoString :=
  appendString v name ++ [58] ++ value

/-- A member of a JSON object whose value is a string. -/
def stringMember (v : Encoder) (p : GoString × GoString) : GoString :=
  jsonMember v p.1 (appendString v p.2)

/-- A JSON object: the members between braces, commas between them. -/
def jsonObject (members : List GoString) : GoString :=
  [123] ++ joinComma members ++ [125]

/-- The encoding of a `map[string]string` that is not nil: an object, one member for a key,
the keys sorted. -/
def marshalMap (v : Encoder) (m : GoMap) : GoString :=
  jsonObject ((sortKeys m.keys).map (fun key => stringMember v (key, m.get key)))

/-- The encoding of a `*healthz`: the fields `Status` and `Details` under the names of their
tags (lines 114-115), in this order. -/
def marshalHealthz (v : Encoder) (h : healthz) : GoString :=
  jsonObject [stringMember v (lit "status", h.Status),
    jsonMember v (lit "details") (marshalMap v h.Details)]

/-- The call `json.Marshal(&healthz{...})`: strings and maps of strings always encode. -/
def Marshal (v : Encoder) (h : healthz) : Except GoError GoString := .ok (marshalHealthz v h)

/-! ## JSON texts read back

What a JSON text written by the encoder stands for: `unquote` for strings, and
`json.Unmarshal` on texts without white space, for objects of strings and for the routing
table. -/

/-- The loop of `strings.ToValidUTF8` with U+FFFD as the replacement, without the merging
of runs: every byte that is no part of a UTF-8 sequence is replaced by the three bytes of
U+FFFD. -/
def toValidUTF8Loop : Nat → GoString → GoString
  | 0, _ => []
  | _ + 1, [] => []
  | fuel + 1, b :: rest =>
    if b < 0x80 then b :: toValidUTF8Loop fuel rest
    else
      let c := (decodeRune (b :: rest)).1
      let size := (decodeRune (b :: rest)).2
      if c = 0xFFFD ∧ size = 1 then [0xEF, 0xBF, 0xBD] ++ toValidUTF8Loop fuel rest
      else (b :: rest).take size ++ toValidUTF8Loop fuel (rest.drop (size - 1))

/-- The string with every byte that is no UTF-8 replaced by U+FFFD: what a JSON string
written by `appendString` stands for. -/
def toValidUTF8 (s : GoString) : GoString := toValidUTF8Loop s.length s

/-- The loop of `utf8.ValidString`: no byte is outside a UTF-8 sequence. -/
def validStringLoop : Nat → GoString → Bool
  | 0, _ => true
  | _ + 1, [] => true
  | fuel + 1, b :: rest =>
    if b < 0x80 then validStringLoop fuel rest
    else
      let c := (decodeRune (b :: rest)).1
      let size := (decodeRune (b :: rest)).2
      if c = 0xFFFD ∧ size = 1 then false
      else validStringLoop fuel (rest.drop (size - 1))

/-- The function `utf8.ValidString`. -/
def ValidString (s : GoString) : Bool := validStringLoop s.length s

/-- The value of a hexadecimal digit. -/
def hexVal (b : Nat) : Option Nat :=
  if 48 ≤ b ∧ b ≤ 57 then some (b - 48)
  else if 97 ≤ b ∧ b ≤ 102 then some (b - 87)
  else if 65 ≤ b ∧ b ≤ 70 then some (b - 55)
  else none

/-- The function `getu4` on the four digits after `\u`. -/
def getu4 (h1 h2 h3 h4 : Nat) : Option Nat :=
  match hexVal h1, hexVal h2, hexVal h3, hexVal h4 with
  | some a, some b, some c, some d => some (a * 4096 + b * 256 + c * 16 + d)
  | _, _, _, _ => none

/-- The code point after a `\u` escape with the value `rr`, and what is left of the input:
a surrogate followed by a second escape that completes the pair takes both, a surrogate
alone is U+FFFD. -/
def unquoteRune (rr : Nat) (rest : GoString) : Nat × GoString :=
  if 0xD800 ≤ rr ∧ rr < 0xE000 then
    match rest with
    | 92 :: 117 :: g1 :: g2 :: g3 :: g4 :: rest2 =>
      match getu4 g1 g2 g3 g4 with
      | some rr1 =>
        if rr < 0xDC00 ∧ 0xDC00 ≤ rr1 ∧ rr1 < 0xE000 then
          ((rr - 0xD800) * 1024 + (rr1 - 0xDC00) + 0x10000, rest2)
        else (0xFFFD, rest)
      | none => (0xFFFD, rest)
    | _ => (0xFFFD, rest)
  else (rr, rest)

/-- The loop of `unquote` from behind the opening quote: the string the literal stands for
and the input behind the closing quote; `none` when the literal is malformed. `fuel` bounds
the number of passes, and the length of the input is enough. -/
def unquoteLoop : Nat → GoString → Option (GoString × GoString)
  | 0, _ => none
  | _ + 1, [] => none
  | fuel + 1, c :: rest =>
    if c = 34 then some ([], rest)
    else if c = 92 then
      match rest with
      | [] => none
      | e :: rest1 =>
        if e = 34 ∨ e = 92 ∨ e = 47 then
          (unquoteLoop fuel rest1).map (fun r => (e :: r.1, r.2))
        else if e = 98 then (unquoteLoop fuel rest1).map (fun r => (8 :: r.1, r.2))
        else if e = 102 then (unquoteLoop fuel rest1).map (fun r => (12 :: r.1, r.2))
        else if e = 110 then (unquoteLoop fuel rest1).map (fun r => (10 :: r.1, r.2))
        else if e = 114 then (unquoteLoop fuel rest1).map (fun r => (13 :: r.1, r.2))
        else if e = 116 then (unquoteLoop fuel rest1).map (fun r => (9 :: r.1, r.2))
        else if e = 117 then
          match rest1 with
          | h1 :: h2 :: h3 :: h4 :: rest2 =>
            match getu4 h1 h2 h3 h4 with
            | some rr =>
              (unquoteLoop fuel (unquoteRune rr rest2).2).map
                (fun r => (encodeRune (unquoteRune rr rest2).1 ++ r.1, r.2))
            | none => none
          | _ => none
        else none
    else if c < 0x20 then none
    else if c < 0x80 then (unquoteLoop fuel rest).map (fun r => (c :: r.1, r.2))
    else
      (unquoteLoop fuel (rest.drop ((decodeRune (c :: rest)).2 - 1))).map
        (fun r => (encodeRune (decodeRune (c :: rest)).1 ++ r.1, r.2))

/-- A JSON string at the start of the input: the string it stands for and the rest. -/
def decodeString : GoString → Option (GoString × GoString)
  | 34 :: rest => unquoteLoop rest.length rest
  | _ => none

/-- The members of an object of strings from behind the opening brace or a comma, up to the
closing brace: the names and the values in the order of the text, and the rest. -/
def decodeStringMembers : Nat → GoString → Option (List (GoString × GoString) × GoString)
  | 0, _ => none
  | fuel + 1, input =>
    match decodeString input with
    | some (name, 58 :: rest) =>
      match decodeString rest with
      | some (value, 44 :: rest1) =>
        (decodeStringMembers fuel rest1).map (fun r => ((name, value) :: r.1, r.2))
      | some (value, 125 :: rest1) => some ([(name, value)], rest1)
      | _ => none
    | _ => none

/-- An object of strings at the start of the input: its members in the order of the text,
and the rest. -/
def decodeStringObject : GoString → Option (List (GoString × GoString) × GoString)
  | 123 :: 125 :: rest => some ([], rest)
  | 123 :: rest => decodeStringMembers rest.length rest
  | _ => none

/-- A JSON value that is a string or an object of strings. -/
inductive JsonValue where
  | str (s : GoString)
  | obj (members : List (GoString × GoString))
  deriving DecidableEq, Repr

/-- A string or an object of strings at the start of the input, and the rest. -/
def decodeValue : GoString → Option (JsonValue × GoString)
  | 34 :: rest => (decodeString (34 :: rest)).map (fun r => (.str r.1, r.2))
  | 123 :: rest => (decodeStringObject (123 :: rest)).map (fun r => (.obj r.1, r.2))
  | _ => none

/-- The members of an object from behind the opening brace or a comma, up to the closing
brace, each value a string or an object of strings. -/
def decodeMembers : Nat → GoString → Option (List (GoString × JsonValue) × GoString)
  | 0, _ => none
  | fuel + 1, input =>
    match decodeString input with
    | some (name, 58 :: rest) =>
      match decodeValue rest with
      | some (value, 44 :: rest1) =>
        (decodeMembers fuel rest1).map (fun r => ((name, value) :: r.1, r.2))
      | some (value, 125 :: rest1) => some ([(name, value)], rest1)
      | _ => none
    | _ => none

/-- The JSON object a whole text stands for: its members in the order of the text, each
value a string or an object of strings; `none` when the text is something else. -/
def decodeObject : GoString → Option (List (GoString × JsonValue))
  | [123, 125] => some []
  | 123 :: rest =>
    match decodeMembers rest.length rest with
    | some (members, []) => some members
    | _ => none
  | _ => none

/-! ## The routing table on the wire

The type of the routing table belongs to package `server`. For the claims that speak of its
JSON text it is taken as the spec shows it: an array of entries with a `host` and a
`target`. The decoder is `json.Unmarshal` at that type, on texts without white space whose
objects have members named `host` or `target` only. -/

/-- Modelled from the spec: an entry of the routing table, a struct with the string fields
`host` and `target` under these JSON names; its declaration is in package `server`, which is
not part of the sources at hand. -/
structure Mapping where
  host : GoString
  target : GoString
  deriving DecidableEq, Repr

/-- Modelled from the spec: the routing table `server.GetMappings` returns, a slice of
entries, `none` being the nil slice; its declaration is in package `server`, which is not
part of the sources at hand. -/
abbrev RouteMapping := Option (List Mapping)

/-- The entries of the routing table; the nil slice has none. -/
def RouteMapping.entries (m : RouteMapping) : List Mapping := m.getD []

/-- The encoding of an entry: the members `host` and `target`, in this order. -/
def marshalMapping (v : Encoder) (e : Mapping) : GoString :=
  jsonObject [stringMember v (lit "host", e.host), stringMember v (lit "target", e.target)]

/-- The encoding of the routing table: `null` for the nil slice, a JSON array of the
entries otherwise. -/
def marshalMappings (v : Encoder) : RouteMapping → GoString
  | none => lit "null"
  | some entries => [91] ++ joinComma (entries.map (marshalMapping v)) ++ [93]

/-- The call `json.Marshal(mappings)` at the routing table: it always encodes. -/
def MarshalMappings (v : Encoder) (m : RouteMapping) : Except GoError GoString :=
  .ok (marshalMappings v m)

/-- The entry with both strings made valid UTF-8. -/
def Mapping.toValidUTF8 (e : Mapping) : Mapping :=
  ⟨Api.toValidUTF8 e.host, Api.toValidUTF8 e.target⟩

/-- A member stored into an entry: the name `host` or `target` sets the field, every other
name is refused. -/
def Mapping.setMember (e : Option Mapping) (p : GoString × GoString) : Option Mapping :=
  match e with
  | none => none
  | some e =>
    if p.1 = lit "host" then some { e with host := p.2 }
    else if p.1 = lit "target" then some { e with target := p.2 }
    else none

/-- The entry an object of strings is decoded into, from the zero value of the struct. -/
def Mapping.ofMembers (members : List (GoString × GoString)) : Option Mapping :=
  members.foldl Mapping.setMember (some ⟨[], []⟩)

/-- An object at the start of the input, decoded into an entry. -/
def decodeMapping (input : GoString) : Option (Mapping × GoString) :=
  match decodeStringObject input with
  | some (members, rest) => (Mapping.ofMembers members).map (fun e => (e, rest))
  | none => none

/-- The elements of an array from behind the opening bracket or a comma. -/
def decodeElements : Nat → GoString → Option (List Mapping × GoString)
  | 0, _ => none
  | fuel + 1, input =>
    match decodeMapping input with
    | some (e, 44 :: rest) => (decodeElements fuel rest).map (fun r => (e :: r.1, r.2))
    | some (e, 93 :: rest) => some ([e], rest)
    | _ => none

/-- The call `json.Unmarshal(body, &mappings)` at the routing table, into a nil slice: the
table the text stands for, `none` when the text is refused. -/
def UnmarshalMappings : GoString → Option RouteMapping
  | [110, 117, 108, 108] => some none
  | [91, 93] => some (some [])
  | 91 :: rest =>
    match decodeElements rest.length rest with
    | some (m, []) => some (some m)
    | _ => none
  | _ => none

/-! ## The endpoint table built by `NewAPI` (lines 29-46)

The router of `gorilla/mux`, as far as `NewAPI` uses it: routes with a path and a list of
methods, one level of subrouters, and the middlewares of a router, which `Use` appends and
which are wrapped around the handler of a matching route, the first one outermost. -/

/-- The handlers `NewAPI` registers. -/
inductive HandlerName where
  | getHealthz
  | promhttpHandler
  | getRoutes
  deriving DecidableEq, Repr

/-- The middlewares `NewAPI` registers. -/
inductive MiddlewareName where
  | metricsMiddleware
  | loggingMiddleware
  deriving DecidableEq, Repr

/-- The handler a request is given to: a registered handler, or a middleware wrapped around
a handler, which the middleware calls as its `next`. -/
inductive HandlerExpr where
  | base (h : HandlerName)
  | wrapped (mw : MiddlewareName) (next : HandlerExpr)
  deriving DecidableEq, Repr

/-- A route with a handler: `Path(path).Methods(methods...).Handler(handler)`. -/
structure Route where
  path : GoString
  methods : List GoString
  handler : HandlerName
  deriving DecidableEq, Repr

/-- A router made by `Subrouter()` on a route with the path `path`. -/
structure SubRouter where
  path : GoString
  middlewares : List MiddlewareName
  routes : List Route
  deriving DecidableEq, Repr

/-- An entry of the route list of the top router. -/
inductive RouterEntry where
  | route (r : Route)
  | subrouter (sr : SubRouter)
  deriving DecidableEq, Repr

/-- The top router, `mux.NewRouter()` and what is registered on it. -/
structure Router where
  middlewares : List MiddlewareName
  entries : List RouterEntry
  deriving DecidableEq, Repr

/-- The function `mux.NewRouter`. -/
def NewRouter : Router := ⟨[], []⟩

/-- The chain `Path(path).Methods(methods...).Handler(handler)` on the top router. -/
def Router.Handle (r : Router) (path : GoString) (methods : List GoString)
    (handler : HandlerName) : Router :=
  { r with entries := r.entries ++ [.route ⟨path, methods, handler⟩] }

/-- The chain `Path(path).Subrouter()`, before anything is registered on the subrouter. -/
def NewSubRouter (path : GoString) : SubRouter := ⟨path, [], []⟩

/-- The method `Use` of a subrouter: the middleware is appended. -/
def SubRouter.Use (sr : SubRouter) (mw : MiddlewareName) : SubRouter :=
  { sr with middlewares := sr.middlewares ++ [mw] }

/-- The path template without the slashes at its end (`strings.TrimRight(tpl, "/")`). -/
def trimRightSlash (tpl : GoString) : GoString :=
  (tpl.reverse.dropWhile (fun b => b == 47)).reverse

/-- The chain `Path(path).Methods(methods...).Handler(handler)` on a subrouter: the template
of the new route is that of the subrouter, without slashes at its end, followed by `path`. -/
def SubRouter.Handle (sr : SubRouter) (path : GoString) (methods : List GoString)
    (handler : HandlerName) : SubRouter :=
  { sr with routes := sr.routes ++ [⟨trimRightSlash sr.path ++ path, methods, handler⟩] }

/-- The subrouter takes the place in the route list it was created at. -/
def Router.Mount (r : Router) (sr : SubRouter) : Router :=
  { r with entries := r.entries ++ [.subrouter sr] }

/-- The middlewares of a router wrapped around a handler: the loop of `Router.Match` runs
from the last middleware to the first, so the first one ends outermost. -/
def applyMiddlewares (mws : List MiddlewareName) (h : HandlerExpr) : HandlerExpr :=
  mws.foldr HandlerExpr.wrapped h

/-- A route matches a request when the path is its template and the method is listed. -/
def Route.matches (r : Route) (method path : GoString) : Bool :=
  r.path == path && r.methods.contains method

/-- The first route of the list that matches. -/
def matchRoutes (routes : List Route) (method path : GoString) : Option HandlerExpr :=
  (routes.find? (fun r => r.matches method path)).map (fun r => .base r.handler)

/-- An entry matches as its route does, or as a route of its subrouter does under the path
of the subrouter; the middlewares of the subrouter are then wrapped around the handler. -/
def RouterEntry.match? (e : RouterEntry) (method path : GoString) : Option HandlerExpr :=
  match e with
  | .route r => matchRoutes [r] method path
  | .subrouter sr =>
    if sr.path == path then
      (matchRoutes sr.routes method path).map (applyMiddlewares sr.middlewares)
    else none

/-- The method `Router.Match`: the first entry that matches, its handler wrapped in the
middlewares of the top router. -/
def Router.Match (r : Router) (method path : GoString) : Option HandlerExpr :=
  (r.entries.findSome? (fun e => e.match? method path)).map (applyMiddlewares r.middlewares)

/-- The middlewares a request goes through, outermost first, read off its handler. -/
def HandlerExpr.chain : HandlerExpr → List MiddlewareName
  | .base _ => []
  | .wrapped mw next => mw :: next.chain

/-- The registered handler a request reaches at the end of the chain. -/
def HandlerExpr.target : HandlerExpr → HandlerName
  | .base h => h
  | .wrapped _ next => next.target

/-- The endpoints of a router: method, path, middleware chain (outermost first), handler. -/
def Router.endpoints (r : Router) :
    List (GoString × GoString × List MiddlewareName × HandlerName) :=
  (r.entries.map (fun e =>
    match e with
    | .route rt => rt.methods.map (fun m => (m, rt.path, r.middlewares, rt.handler))
    | .subrouter sr =>
      (sr.routes.map (fun rt =>
        rt.methods.map (fun m =>
          (m, rt.path, r.middlewares ++ sr.middlewares, rt.handler)))).flatten)).flatten

/-- The function `strconv.Itoa`. -/
def Itoa (i : Int) : GoString := lit (toString i)

/-- The function `net.JoinHostPort`: a host with a colon is put in brackets. -/
def JoinHostPort (host port : GoString) : GoString :=
  if host.contains 58 then lit "[" ++ host ++ lit "]:" ++ port
  else host ++ lit ":" ++ port

/-- The struct `http.Server`, as `NewAPI` fills it. -/
structure HTTPServer where
  Addr : GoString
  Handler : Router
  deriving DecidableEq, Repr

/-- The struct `API` (lines 23-26). -/
structure API where
  httpServer : HTTPServer
  router : Router
  deriving DecidableEq, Repr

/-- The function `NewAPI` (lines 29-46). -/
def NewAPI (host : GoString) (port : Int) : API :=
  let router := NewRouter
  let router := router.Handle (lit "/healthz") [lit "GET"] .getHealthz
  let router := router.Handle (lit "/metrics") [lit "GET"] .promhttpHandler
  let apiRouter := NewSubRouter (lit "/routes")
  let apiRouter := apiRouter.Use .metricsMiddleware
  let apiRouter := apiRouter.Use .loggingMiddleware
  let apiRouter := apiRouter.Handle (lit "") [lit "GET"] .getRoutes
  let router := router.Mount apiRouter
  { httpServer := { Addr := JoinHostPort host (Itoa port), Handler := router },
    router := router }

/-! ## The lifecycle of `Start` (lines 49-68)

`Start` is a sequence of steps of the goroutine that calls it, with two places where it
waits: inside the call `api.httpServer.ListenAndServe()` and at the `select`. The operand
`logrus.WithError(api.httpServer.ListenAndServe()).WithFields(...)` of the `go` statement is
evaluated by the goroutine that runs `Start`, as the operands of every `go` statement are;
only the call of `Fatal` on the entry it yields runs in the new goroutine. What the
surroundings do (the listener is bound, `ListenAndServe` returns, the context is cancelled,
the scheduler runs the new goroutine) are the events of the machine. -/

/-- Where the goroutine that runs `Start` is. -/
inductive Pc where
  /-- Line 58, inside `api.httpServer.ListenAndServe()`. -/
  | inListenAndServe
  /-- Lines 62-67, waiting at the `select`. -/
  | inSelect
  /-- The method has returned, line 65, and the deferred call of line 50 has run. -/
  | returned
  deriving DecidableEq, Repr

/-- The goroutine started at line 58: the call of `Fatal("api failed to start")` on an entry
with the error of `ListenAndServe` and the field `addr`. -/
structure FatalCall where
  err : GoError
  addr : GoString
  msg : GoString
  deriving DecidableEq, Repr

/-- The process as far as `Start` is concerned. -/
structure Proc (M : Type) where
  /-- The receiver of `Start`. -/
  api : API
  pc : Pc
  /-- The package variables and the collaborators. -/
  world : World M
  /-- The listener is bound and connections are accepted. -/
  listening : Bool
  /-- The method `api.httpServer.Close()` has run. -/
  closed : Bool
  /-- The channel `context.Done()` is closed. -/
  ctxDone : Bool
  /-- The number of calls of `ListenAndServe` so far. -/
  listenCalls : Nat
  /-- The goroutine of line 58, started and not run yet. -/
  fatal : Option FatalCall
  /-- The line logged at level fatal. -/
  fatalLog : Option FatalCall
  /-- The exit code once `os.Exit` is called. -/
  exitCode : Option Nat

/-- The method `Start` from its call in the world `w` to the place where it first waits
(lines 50-58): the call of `Close` is deferred, `k` and `s` are set to the arguments, and the
evaluation of the operand of the `go` statement has entered `ListenAndServe`. -/
def Start.enter {M : Type} (api : API) (w : World M) (k8s : Option K8S)
    (server : Option Server) : Proc M :=
  { api := api, pc := .inListenAndServe, world := { w with k := k8s, s := server },
    listening := false, closed := false, ctxDone := false, listenCalls := 1, fatal := none,
    fatalLog := none, exitCode := none }

/-- What happens to the process once `Start` is called. -/
inductive Event where
  /-- Inside `ListenAndServe` the listener is bound; connections are accepted from now. -/
  | bound
  /-- The call of `ListenAndServe` returns, with the error `err`: the address could not be
  bound, or the listener stopped. -/
  | listenReturns (err : GoError)
  /-- The governing context is cancelled. -/
  | cancel
  /-- The `select` receives from `context.Done()`; line 65 returns, line 50 closes. -/
  | selectDone
  /-- The scheduler runs the goroutine of line 58: `Fatal` logs and calls `os.Exit(1)`. -/
  | fatalRuns
  deriving DecidableEq, Repr

/-- One step of the process; an event that cannot happen in the state leaves it as it is. -/
def Proc.step {M : Type} (p : Proc M) (e : Event) : Proc M :=
  match p.exitCode with
  | some _ => p
  | none =>
    match e with
    | .bound =>
      match p.pc with
      | .inListenAndServe => { p with listening := true }
      | _ => p
    | .listenReturns err =>
      match p.pc with
      | .inListenAndServe =>
        { p with pc := .inSelect, listening := false,
                 fatal := some ⟨err, p.api.httpServer.Addr, lit "api failed to start"⟩ }
      | _ => p
    | .cancel => { p with ctxDone := true }
    | .selectDone =>
      match p.pc with
      | .inSelect =>
        if p.ctxDone then { p with pc := .returned, closed := true, listening := false }
        else p
      | _ => p
    | .fatalRuns =>
      match p.fatal with
      | some f => { p with fatal := none, fatalLog := some f, exitCode := some 1 }
      | none => p

/-- The process after a sequence of events. -/
def Proc.run {M : Type} (p : Proc M) (events : List Event) : Proc M :=
  events.foldl Proc.step p

/-- The method `Start` (lines 49-68), called in the world `w` on the receiver `api` with the
collaborators `k8s` and `server`: the process after the call and the events that follow. -/
def Start {M : Type} (api : API) (w : World M) (k8s : Option K8S) (server : Option Server)
    (events : List Event) : Proc M :=
  (Start.enter api w k8s server).run events

/-- An event other than the return of `ListenAndServe`. -/
def Event.keepsListening : Event → Bool
  | .listenReturns _ => false
  | _ => true

/-- What holds of the process of `Start` with the receiver `api` at every moment. -/
def Proc.Inv {M : Type} (api : API) (p : Proc M) : Prop :=
  p.api = api ∧
    match p.pc with
    | .inListenAndServe => p.listenCalls = 1 ∧ p.exitCode = none ∧ p.fatal = none
    | .inSelect => p.listenCalls = 1 ∧ p.listening = false
    | .returned =>
      p.listenCalls = 1 ∧ p.listening = false ∧ p.ctxDone = true ∧ p.closed = true

/-- The process is inside `ListenAndServe` with the listener bound, the context cancelled,
nothing closed and no other goroutine started. -/
def Proc.Serving {M : Type} (p : Proc M) : Prop :=
  p.exitCode = none ∧ p.pc = .inListenAndServe ∧ p.listening = true ∧ p.closed = false ∧
    p.ctxDone = true ∧ p.fatal = none

/-- A sequence the decoder accepts: what the decoder returns, and the same bytes again. -/
def RuneAt (b : Nat) (t : GoString) : Prop :=
  2 ≤ (decodeRune (b :: t)).2 ∧ (decodeRune (b :: t)).2 ≤ (b :: t).length ∧
    encodeRune (decodeRune (b :: t)).1 = (b :: t).take (decodeRune (b :: t)).2 ∧
    ∀ Y, decodeRune ((b :: t).take (decodeRune (b :: t)).2 ++ Y) = decodeRune (b :: t)

/-- A member of an object of strings with its name and its value made valid UTF-8. -/
def toValidMember (p : GoString × GoString) : GoString × GoString :=
  (toValidUTF8 p.1, toValidUTF8 p.2)

/-- The text the encoder writes for a string or an object of strings. -/
def renderValue (v : Encoder) : JsonValue → GoString
  | .str s => appendString v s
  | .obj members => jsonObject (members.map (stringMember v))

/-- The value with every string made valid UTF-8. -/
def JsonValue.toValidUTF8 : JsonValue → JsonValue
  | .str s => .str (Api.toValidUTF8 s)
  | .obj members => .obj (members.map toValidMember)

/-- The text the encoder writes for a member whose value is a string or an object of
strings. -/
def renderMember (v : Encoder) (p : GoString × JsonValue) : GoString :=
  jsonMember v p.1 (renderValue v p.2)

/-- The world once `Start` is called with a watcher that reports the one byte `0xFF` and a
dispatch server that reports `"up"`. -/
def invalidStatusWorld : World Unit :=
  (Start (NewAPI (lit "localhost") 8080) ⟨none, none, ()⟩ (some ⟨[0xFF]⟩)
    (some ⟨lit "up"⟩) []).world

/-- The world once `Start` is called, both collaborators reporting `"up"`, while the
routing table has the one entry whose host is the one byte `0xFF`. -/
def invalidHostWorld : World RouteMapping :=
  (Start (NewAPI (lit "localhost") 8080) ⟨none, none, some [⟨[0xFF], lit "10.0.0.1:25565"⟩]⟩
    (some ⟨lit "up"⟩) (some ⟨lit "up"⟩) []).world

/-- The routing table of the example: `a.example.com` goes to `10.0.0.1:25565`. -/
def exampleTable : RouteMapping := some [⟨lit "a.example.com", lit "10.0.0.1:25565"⟩]

/-! ## Theorems -/

/-- While the status is `"down"` the loop leaves it so. -/
theorem foldl_healthStep_down (details : GoMap) (order : List GoString) :
    order.foldl (healthStep details) (lit "down") = lit "down" := by
  induction order with
  | nil => rfl
  | cons key rest ih =>
    simp only [List.foldl_cons, healthStep]
    split <;> exact ih

/-- The loop computes the conjunction of the tests `details[key] == "up"` over the keys it
visits. -/
theorem healthLoop_eq (details : GoMap) (order : List GoString) :
    healthLoop details order =
      if ∀ key ∈ order, details.get key = lit "up" then lit "up" else lit "down" := by
  unfold healthLoop
  induction order with
  | nil => simp
  | cons key rest ih =>
    simp only [List.foldl_cons, healthStep, List.mem_cons, forall_eq_or_imp]
    by_cases h : details.get key = lit "up"
    · simp only [h, if_true, true_and]
      exact ih
    · simp only [h, if_false, false_and]
      exact foldl_healthStep_down details rest

theorem lit_up_ne_down : lit "up" ≠ lit "down" := by decide

/-- C1. For every details mapping and every order in which `range` may enumerate its keys,
the aggregation loop of `getHealthz` ends with status `"up"` if and only if every value of
the mapping is `"up"`, and with `"down"` as soon as one value is not `"up"`; a mapping with
no key gives `"up"`. -/
theorem healthLoop_up_iff_all_up (details : GoMap) (order : List GoString)
    (horder : order.Perm details.keys) :
    (healthLoop details order = lit "up" ↔
        ∀ key ∈ details.keys, details.get key = lit "up") ∧
      ((∃ key ∈ details.keys, details.get key ≠ lit "up") →
        healthLoop details order = lit "down") ∧
      (details.keys = [] → healthLoop details order = lit "up") := by
  have hmem : ∀ key, key ∈ order ↔ key ∈ details.keys := fun key => horder.mem_iff
  rw [healthLoop_eq]
  refine ⟨⟨?_, ?_⟩, ?_, ?_⟩
  · intro h key hkey
    by_cases hall : ∀ key ∈ order, details.get key = lit "up"
    · exact hall key ((hmem key).2 hkey)
    · rw [if_neg hall] at h
      exact absurd h.symm lit_up_ne_down
  · intro h
    rw [if_pos (fun key hkey => h key ((hmem key).1 hkey))]
  · rintro ⟨key, hkey, hne⟩
    rw [if_neg (fun hall => hne (hall key ((hmem key).2 hkey)))]
  · intro hempty
    rw [if_pos]
    intro key hkey
    rw [hmem key, hempty] at hkey
    exact absurd hkey (List.not_mem_nil key)

/-- C1, at the mapping `k8s = "up"`, `server = "UP"`, enumerated from `server` on: the
status is `"down"`. -/
theorem healthLoop_up_iff_all_up_witness :
    [lit "server", lit "k8s"].Perm (healthzDetails (lit "up") (lit "UP")).keys ∧
      healthLoop (healthzDetails (lit "up") (lit "UP")) [lit "server", lit "k8s"] =
        lit "down" :=
  ⟨by decide,
    (healthLoop_up_iff_all_up (healthzDetails (lit "up") (lit "UP"))
      [lit "server", lit "k8s"] (by decide)).2.1 ⟨lit "server", by decide, by decide⟩⟩

/-- C10. The status computed by the loop of `getHealthz` does not depend on the order in
which the keys of the details mapping are enumerated: any two enumerations of the keys give
the same status. -/
theorem healthLoop_order_independent (details : GoMap) (order₁ order₂ : List GoString)
    (h₁ : order₁.Perm details.keys) (h₂ : order₂.Perm details.keys) :
    healthLoop details order₁ = healthLoop details order₂ := by
  have hmem : ∀ key, key ∈ order₁ ↔ key ∈ order₂ := fun key =>
    (h₁.trans h₂.symm).mem_iff
  rw [healthLoop_eq, healthLoop_eq]
  by_cases hall : ∀ key ∈ order₁, details.get key = lit "up"
  · rw [if_pos hall, if_pos (fun key hkey => hall key ((hmem key).2 hkey))]
  · rw [if_neg hall, if_neg (fun h => hall (fun key hkey => h key ((hmem key).1 hkey)))]

/-- C10, at the mapping `k8s = "down"`, `server = "up"` enumerated in both orders. -/
theorem healthLoop_order_independent_witness :
    [lit "k8s", lit "server"].Perm (healthzDetails (lit "down") (lit "up")).keys ∧
      [lit "server", lit "k8s"].Perm (healthzDetails (lit "down") (lit "up")).keys ∧
      healthLoop (healthzDetails (lit "down") (lit "up")) [lit "k8s", lit "server"] =
        healthLoop (healthzDetails (lit "down") (lit "up")) [lit "server", lit "k8s"] :=
  ⟨by decide, by decide,
    healthLoop_order_independent (healthzDetails (lit "down") (lit "up"))
      [lit "k8s", lit "server"] [lit "server", lit "k8s"] (by decide) (by decide)⟩

/-- The map `details` of `getHealthz` has the two entries `k8s` and `server`. -/
theorem healthzDetails_eq (a b : GoString) :
    healthzDetails a b = [(lit "k8s", a), (lit "server", b)] := by
  have hne : lit "k8s" ≠ lit "server" := by decide
  simp [healthzDetails, GoMap.set, GoMap.empty, hne]

theorem healthzDetails_keys (a b : GoString) :
    (healthzDetails a b).keys = [lit "k8s", lit "server"] := by
  have hne : lit "k8s" ≠ lit "server" := by decide
  rw [healthzDetails_eq]
  simp [GoMap.keys, hne]

theorem healthzDetails_get_k8s (a b : GoString) :
    (healthzDetails a b).get (lit "k8s") = a := by
  rw [healthzDetails_eq]
  simp [GoMap.get]

theorem healthzDetails_get_server (a b : GoString) :
    (healthzDetails a b).get (lit "server") = b := by
  have hne : lit "k8s" ≠ lit "server" := by decide
  rw [healthzDetails_eq]
  simp [GoMap.get, hne]

/-- The composite status `getHealthz` computes from the statuses `a` and `b`. -/
theorem healthzValue_Status (range : GoMap → List GoString) (hrange : RangeOrder range)
    (a b : GoString) :
    (healthzValue range a b).Status =
      if a = lit "up" ∧ b = lit "up" then lit "up" else lit "down" := by
  have hmem : ∀ key, key ∈ range (healthzDetails a b) ↔ key ∈ (healthzDetails a b).keys :=
    fun key => (hrange _).mem_iff
  show healthLoop (healthzDetails a b) (range (healthzDetails a b)) = _
  rw [healthLoop_eq]
  have hall : (∀ key ∈ range (healthzDetails a b), (healthzDetails a b).get key = lit "up") ↔
      (a = lit "up" ∧ b = lit "up") := by
    constructor
    · intro h
      constructor
      · have := h (lit "k8s") ((hmem _).2 (by rw [healthzDetails_keys]; simp))
        rwa [healthzDetails_get_k8s] at this
      · have := h (lit "server") ((hmem _).2 (by rw [healthzDetails_keys]; simp))
        rwa [healthzDetails_get_server] at this
    · rintro ⟨ha, hb⟩ key hkey
      rw [hmem, healthzDetails_keys] at hkey
      simp only [List.mem_cons, List.mem_singleton, List.not_mem_nil, or_false] at hkey
      rcases hkey with rfl | rfl
      · rw [healthzDetails_get_k8s]; exact ha
      · rw [healthzDetails_get_server]; exact hb
  by_cases h : a = lit "up" ∧ b = lit "up"
  · rw [if_pos h, if_pos (hall.2 h)]
  · rw [if_neg h, if_neg (fun h2 => h (hall.1 h2))]

/-- What `getHealthz` does once both collaborators are set, in terms of `healthzValue`. -/
theorem getHealthz_eq {M : Type} (marshal : healthz → Except GoError GoString)
    (range : GoMap → List GoString) (st : HandlerState M) (kc : K8S) (sc : Server)
    (hk : st.world.k = some kc) (hs : st.world.s = some sc) :
    getHealthz marshal range st =
      match marshal (healthzValue range kc.Status sc.Status) with
      | .error err =>
        (writeHeader (logError st err (lit "marchaling healthz failed"))
          StatusInternalServerError, .returned)
      | .ok bytes =>
        (write (if (healthzValue range kc.Status sc.Status).Status = lit "down"
          then writeHeader st StatusServiceUnavailable else st) bytes, .returned) := by
  simp only [getHealthz, hk, hs, healthzValue, healthzDetails]

/-- The response of `getHealthz` once both collaborators are set. -/
theorem respond_getHealthz {M : Type} (marshal : healthz → Except GoError GoString)
    (range : GoMap → List GoString) (w : World M) (kc : K8S) (sc : Server)
    (hk : w.k = some kc) (hs : w.s = some sc) :
    respond (getHealthz marshal range) w =
      match marshal (healthzValue range kc.Status sc.Status) with
      | .error _ => some ⟨500, []⟩
      | .ok bytes =>
        some ⟨if (healthzValue range kc.Status sc.Status).Status = lit "down" then 503
          else 200, bytes⟩ := by
  unfold respond serve
  rw [getHealthz_eq marshal range _ kc sc hk hs]
  cases marshal (healthzValue range kc.Status sc.Status) with
  | error err =>
    simp [writeHeader, logError, ResponseWriter.WriteHeader, ResponseWriter.finish,
      ResponseWriter.fresh, StatusInternalServerError]
  | ok bytes =>
    by_cases hd : (healthzValue range kc.Status sc.Status).Status = lit "down"
    · simp [hd, write, writeHeader, ResponseWriter.Write, ResponseWriter.WriteHeader,
        ResponseWriter.finish, ResponseWriter.fresh, StatusServiceUnavailable]
    · simp [hd, write, ResponseWriter.Write, ResponseWriter.finish, ResponseWriter.fresh,
        StatusOK]

/-- The response of `getRoutes`. -/
theorem respond_getRoutes {M : Type} (marshal : M → Except GoError GoString) (w : World M) :
    respond (getRoutes marshal) w =
      match marshal (GetMappings w) with
      | .error _ => some ⟨500, []⟩
      | .ok bytes => some ⟨200, bytes⟩ := by
  cases h : marshal (GetMappings w) with
  | error err =>
    simp [respond, serve, getRoutes, h, writeHeader, logError, ResponseWriter.WriteHeader,
      ResponseWriter.finish, ResponseWriter.fresh, StatusInternalServerError]
  | ok bytes =>
    simp [respond, serve, getRoutes, h, write, ResponseWriter.Write, ResponseWriter.finish,
      ResponseWriter.fresh, StatusOK]

/-- The order `GoMap.keys` is one of the orders `range` may take. -/
theorem rangeOrder_keys : RangeOrder GoMap.keys := fun _ => List.Perm.refl _

/-- C2. When both collaborators are set and the encoding succeeds, `getHealthz` answers 200
if the watcher and the dispatch server both report `"up"` and 503 if one of them reports
anything else, in both cases with the bytes the encoder returned as the body; the code is
200 exactly when the composite status handed to the encoder is `"up"`. -/
theorem getHealthz_status_code {M : Type} (marshal : healthz → Except GoError GoString)
    (range : GoMap → List GoString) (hrange : RangeOrder range) (w : World M)
    (kc : K8S) (sc : Server) (hk : w.k = some kc) (hs : w.s = some sc) (bytes : GoString)
    (henc : marshal (healthzValue range kc.Status sc.Status) = .ok bytes) :
    (kc.Status = lit "up" ∧ sc.Status = lit "up" →
        respond (getHealthz marshal range) w = some ⟨200, bytes⟩) ∧
      (kc.Status ≠ lit "up" ∨ sc.Status ≠ lit "up" →
        respond (getHealthz marshal range) w = some ⟨503, bytes⟩) ∧
      (∃ r, respond (getHealthz marshal range) w = some r ∧
        (r.code = 200 ↔ (healthzValue range kc.Status sc.Status).Status = lit "up")) := by
  have hstatus := healthzValue_Status range hrange kc.Status sc.Status
  rw [respond_getHealthz marshal range w kc sc hk hs, henc]
  by_cases h : kc.Status = lit "up" ∧ sc.Status = lit "up"
  · rw [if_pos h] at hstatus
    rw [hstatus, if_neg lit_up_ne_down]
    exact ⟨fun _ => rfl, fun h2 => by tauto, ⟨_, rfl, by simp⟩⟩
  · rw [if_neg h] at hstatus
    rw [hstatus, if_pos rfl]
    exact ⟨fun h2 => absurd h2 h, fun _ => rfl, ⟨_, rfl, by simp [lit_up_ne_down.symm]⟩⟩

/-- C2, at the watcher `"up"` and the dispatch server `"degraded"`, with the encoder of
`encoding/json`: the answer is 503. -/
theorem getHealthz_status_code_witness :
    RangeOrder GoMap.keys ∧
      Marshal .go122 (healthzValue GoMap.keys (lit "up") (lit "degraded")) =
        .ok (marshalHealthz .go122 (healthzValue GoMap.keys (lit "up") (lit "degraded"))) ∧
      respond (getHealthz (Marshal .go122) GoMap.keys)
          (⟨some ⟨lit "up"⟩, some ⟨lit "degraded"⟩, ()⟩ : World Unit) =
        some ⟨503,
          marshalHealthz .go122 (healthzValue GoMap.keys (lit "up") (lit "degraded"))⟩ :=
  ⟨rangeOrder_keys, rfl,
    (getHealthz_status_code (Marshal .go122) GoMap.keys rangeOrder_keys
      (⟨some ⟨lit "up"⟩, some ⟨lit "degraded"⟩, ()⟩ : World Unit) ⟨lit "up"⟩
      ⟨lit "degraded"⟩ rfl rfl
      (marshalHealthz .go122 (healthzValue GoMap.keys (lit "up") (lit "degraded"))) rfl).2.1
      (Or.inr (by decide))⟩

/-- The handler `getHealthz` returns once both collaborators are set. -/
theorem getHealthz_returns {M : Type} (marshal : healthz → Except GoError GoString)
    (range : GoMap → List GoString) (w : World M) (kc : K8S) (sc : Server)
    (hk : w.k = some kc) (hs : w.s = some sc) :
    (serve (getHealthz marshal range) w).2 = .returned := by
  unfold serve
  rw [getHealthz_eq marshal range _ kc sc hk hs]
  cases marshal (healthzValue range kc.Status sc.Status) <;> rfl

/-- The handler `getRoutes` returns. -/
theorem getRoutes_returns {M : Type} (marshal : M → Except GoError GoString) (w : World M) :
    (serve (getRoutes marshal) w).2 = .returned := by
  cases h : marshal (GetMappings w) <;> simp [serve, getRoutes, h]

/-- C5. When the encoding fails, `getHealthz` (both collaborators set) and `getRoutes` answer
500 with an empty body and return, the error logged and not passed on; when the encoding
succeeds the code is not 500. -/
theorem marshal_failure_gives_500 {M : Type} (marshalH : healthz → Except GoError GoString)
    (marshalR : M → Except GoError GoString) (range : GoMap → List GoString) (w : World M)
    (kc : K8S) (sc : Server) (hk : w.k = some kc) (hs : w.s = some sc) :
    (∀ err, marshalH (healthzValue range kc.Status sc.Status) = .error err →
        respond (getHealthz marshalH range) w = some ⟨500, []⟩ ∧
        (serve (getHealthz marshalH range) w).1.log =
          [⟨lit "marchaling healthz failed", err⟩]) ∧
      (∀ err, marshalR (GetMappings w) = .error err →
        respond (getRoutes marshalR) w = some ⟨500, []⟩ ∧
        (serve (getRoutes marshalR) w).1.log =
          [⟨lit "marchaling mappings failed", err⟩]) ∧
      (∀ bytes, marshalH (healthzValue range kc.Status sc.Status) = .ok bytes →
        ∃ r, respond (getHealthz marshalH range) w = some r ∧ r.code ≠ 500) ∧
      (∀ bytes, marshalR (GetMappings w) = .ok bytes →
        ∃ r, respond (getRoutes marshalR) w = some r ∧ r.code ≠ 500) ∧
      (serve (getHealthz marshalH range) w).2 = .returned ∧
      (serve (getRoutes marshalR) w).2 = .returned := by
  refine ⟨?_, ?_, ?_, ?_, getHealthz_returns marshalH range w kc sc hk hs,
    getRoutes_returns marshalR w⟩
  · intro err herr
    refine ⟨by rw [respond_getHealthz marshalH range w kc sc hk hs, herr], ?_⟩
    unfold serve
    rw [getHealthz_eq marshalH range _ kc sc hk hs, herr]
    simp [writeHeader, logError]
  · intro err herr
    refine ⟨by rw [respond_getRoutes, herr], ?_⟩
    unfold serve
    simp [getRoutes, herr, writeHeader, logError]
  · intro bytes hok
    rw [respond_getHealthz marshalH range w kc sc hk hs, hok]
    refine ⟨_, rfl, ?_⟩
    show (if _ then 503 else 200) ≠ 500
    split <;> decide
  · intro bytes hok
    rw [respond_getRoutes, hok]
    exact ⟨⟨200, bytes⟩, rfl, by show (200 : Nat) ≠ 500; decide⟩

/-- C5, with encoders that refuse every value: both handlers answer 500 with an empty
body. -/
theorem marshal_failure_gives_500_witness :
    respond (getHealthz (fun _ => .error (lit "unsupported type")) GoMap.keys)
        (⟨some ⟨lit "up"⟩, some ⟨lit "up"⟩, ()⟩ : World Unit) = some ⟨500, []⟩ ∧
      respond (getRoutes (fun _ => .error (lit "unsupported type")))
        (⟨some ⟨lit "up"⟩, some ⟨lit "up"⟩, ()⟩ : World Unit) = some ⟨500, []⟩ :=
  ⟨((marshal_failure_gives_500 (fun _ => .error (lit "unsupported type"))
      (fun _ => .error (lit "unsupported type")) GoMap.keys
      (⟨some ⟨lit "up"⟩, some ⟨lit "up"⟩, ()⟩ : World Unit) ⟨lit "up"⟩ ⟨lit "up"⟩
      rfl rfl).1 (lit "unsupported type") rfl).1,
    ((marshal_failure_gives_500 (fun _ => .error (lit "unsupported type"))
      (fun _ => .error (lit "unsupported type")) GoMap.keys
      (⟨some ⟨lit "up"⟩, some ⟨lit "up"⟩, ()⟩ : World Unit) ⟨lit "up"⟩ ⟨lit "up"⟩
      rfl rfl).2.1 (lit "unsupported type") rfl).1⟩

/-- C9. The handlers leave the world as it is: the package variables `k` and `s`, the
collaborators they point to and the routing table are the same after `getHealthz` and after
`getRoutes` as before, whatever the encoder does; the call of `Start` is what sets `k` and
`s`. -/
theorem handlers_leave_world {M : Type} (marshalH : healthz → Except GoError GoString)
    (marshalR : M → Except GoError GoString) (range : GoMap → List GoString)
    (st : HandlerState M) (api : API) (k8s : Option K8S) (server : Option Server) :
    (getHealthz marshalH range st).1.world = st.world ∧
      (getRoutes marshalR st).1.world = st.world ∧
      (Start api st.world k8s server []).world = { st.world with k := k8s, s := server } := by
  refine ⟨?_, ?_, rfl⟩
  · unfold getHealthz
    cases st.world.k with
    | none => rfl
    | some kc =>
      cases st.world.s with
      | none => rfl
      | some sc =>
        simp only []
        split
        · rfl
        · split <;> rfl
  · unfold getRoutes
    simp only []
    split <;> rfl

/-- The process after two sequences of events. -/
theorem run_append {M : Type} (p : Proc M) (es₁ es₂ : List Event) :
    p.run (es₁ ++ es₂) = (p.run es₁).run es₂ :=
  List.foldl_append _ _ _ _

/-- A step that is not the return of `ListenAndServe` leaves a serving process serving. -/
theorem serving_step {M : Type} {p : Proc M} (hp : p.Serving) (e : Event)
    (he : e.keepsListening = true) : (p.step e).Serving := by
  obtain ⟨h1, h2, h3, h4, h5, h6⟩ := hp
  cases e <;>
    simp_all [Proc.step, Proc.Serving, Event.keepsListening]

/-- A run without a return of `ListenAndServe` leaves a serving process serving. -/
theorem serving_run {M : Type} (events : List Event) :
    ∀ {p : Proc M}, p.Serving → (p.run (events.filter Event.keepsListening)).Serving := by
  induction events with
  | nil => intro p hp; exact hp
  | cons e rest ih =>
    intro p hp
    by_cases he : e.keepsListening = true
    · rw [List.filter_cons_of_pos he]
      exact ih (serving_step hp e he)
    · rw [List.filter_cons_of_neg he]
      exact ih hp

/-- C6, as the code has it. Once `Start` is called and the listener is bound, the
goroutine that runs `Start` is inside `ListenAndServe`; a cancellation of the context then
changes nothing: whatever happens next, short of `ListenAndServe` returning by itself,
`Start` has not returned, the listener is still bound and the server is not closed. -/
theorem Start_ignores_cancel_while_serving {M : Type} (api : API) (w : World M)
    (k8s : Option K8S) (server : Option Server) (events : List Event) :
    (Start api w k8s server
        ([.bound, .cancel] ++ events.filter Event.keepsListening)).ctxDone = true ∧
      (Start api w k8s server
        ([.bound, .cancel] ++ events.filter Event.keepsListening)).pc = .inListenAndServe ∧
      (Start api w k8s server
        ([.bound, .cancel] ++ events.filter Event.keepsListening)).listening = true ∧
      (Start api w k8s server
        ([.bound, .cancel] ++ events.filter Event.keepsListening)).closed = false := by
  have h0 : ((Start.enter api w k8s server).run [.bound, .cancel]).Serving := by
    simp [Proc.run, Proc.step, Start.enter, Proc.Serving]
  unfold Start
  rw [run_append]
  obtain ⟨_, h2, h3, h4, h5, _⟩ := serving_run events h0
  exact ⟨h5, h2, h3, h4⟩

/-- The invariant holds when `Start` first waits. -/
theorem inv_enter {M : Type} (api : API) (w : World M) (k8s : Option K8S)
    (server : Option Server) : (Start.enter api w k8s server).Inv api := by
  simp [Proc.Inv, Start.enter]

/-- Every step keeps the invariant. -/
theorem inv_step {M : Type} {api : API} {p : Proc M} (hp : p.Inv api) (e : Event) :
    (p.step e).Inv api := by
  obtain ⟨hapi, hpc⟩ := hp
  rcases p with ⟨a, pc, w, l, c, d, n, f, fl, x⟩
  cases x with
  | some code => exact ⟨hapi, hpc⟩
  | none =>
    cases e <;> cases pc <;> (try cases f) <;> (try cases d) <;>
      simp_all [Proc.step, Proc.Inv]

/-- Every run keeps the invariant. -/
theorem inv_run {M : Type} {api : API} (events : List Event) :
    ∀ {p : Proc M}, p.Inv api → (p.run events).Inv api := by
  induction events with
  | nil => intro p hp; exact hp
  | cons e rest ih => intro p hp; exact ih (inv_step hp e)

/-- Once `ListenAndServe` has returned it is not called again. -/
theorem run_not_listening {M : Type} {api : API} (events : List Event) :
    ∀ {p : Proc M}, p.Inv api → p.pc = .inSelect ∨ p.pc = .returned →
      (p.run events).pc ≠ .inListenAndServe ∧ (p.run events).listenCalls = 1 ∧
        (p.run events).listening = false := by
  induction events with
  | nil =>
    intro p hp hpc
    obtain ⟨_, hinv⟩ := hp
    rcases hpc with h | h <;> rw [h] at hinv <;> simp [Proc.run, h, hinv.1, hinv.2]
  | cons e rest ih =>
    intro p hp hpc
    refine ih (inv_step hp e) ?_
    rcases p with ⟨a, pc, w, l, c, d, n, f, fl, x⟩
    simp only at hpc
    cases x with
    | some code => exact hpc
    | none =>
      rcases hpc with h | h <;> subst h <;> cases e <;> (try cases f) <;> (try cases d) <;>
        simp [Proc.step]

/-- C8. Whenever the goroutine that runs `Start` is inside `ListenAndServe` and that call
returns an error (the address could not be bound, or the listener stopped), `Start` starts
the call of `Fatal("api failed to start")` with that error and the address attached; when
that call runs, the line is logged and the process exits with code 1; and whatever happens
afterwards `ListenAndServe` is not called a second time and nothing listens again. -/
theorem listen_error_is_fatal {M : Type} (api : API) (w : World M) (k8s : Option K8S)
    (server : Option Server) (pre post : List Event) (err : GoError)
    (hpc : (Start api w k8s server pre).pc = .inListenAndServe) :
    (Start api w k8s server (pre ++ [.listenReturns err])).fatal =
        some ⟨err, api.httpServer.Addr, lit "api failed to start"⟩ ∧
      (Start api w k8s server (pre ++ [.listenReturns err, .fatalRuns])).exitCode = some 1 ∧
      (Start api w k8s server (pre ++ [.listenReturns err, .fatalRuns])).fatalLog =
        some ⟨err, api.httpServer.Addr, lit "api failed to start"⟩ ∧
      (Start api w k8s server (pre ++ .listenReturns err :: post)).pc ≠ .inListenAndServe ∧
      (Start api w k8s server (pre ++ .listenReturns err :: post)).listenCalls = 1 ∧
      (Start api w k8s server (pre ++ .listenReturns err :: post)).listening = false := by
  unfold Start at hpc ⊢
  have hinv : ((Start.enter api w k8s server).run pre).Inv api :=
    inv_run pre (inv_enter api w k8s server)
  simp only [run_append]
  generalize (Start.enter api w k8s server).run pre = p at hpc hinv
  have hinv2 := inv_step hinv (.listenReturns err)
  obtain ⟨hapi, hrest⟩ := hinv
  rw [hpc] at hrest
  obtain ⟨hn, hx, hf⟩ := hrest
  have hstep : p.step (.listenReturns err) =
      { p with pc := .inSelect, listening := false,
               fatal := some ⟨err, api.httpServer.Addr, lit "api failed to start"⟩ } := by
    simp [Proc.step, hx, hpc, hapi]
  have hpost := run_not_listening post hinv2 (Or.inl (by rw [hstep]))
  have hr1 : p.run [.listenReturns err] = p.step (.listenReturns err) := rfl
  have hr2 : p.run [.listenReturns err, .fatalRuns] =
      (p.step (.listenReturns err)).step .fatalRuns := rfl
  have hr3 : p.run (.listenReturns err :: post) = (p.step (.listenReturns err)).run post := rfl
  rw [hr1, hr2, hr3]
  refine ⟨by rw [hstep], ?_, ?_, hpost.1, hpost.2.1, hpost.2.2⟩
  · rw [hstep]; simp [Proc.step, hx]
  · rw [hstep]; simp [Proc.step, hx]

/-- C8, at the address that cannot be bound: `ListenAndServe` returns at once with the
error; the call of `Fatal` carries it and ends the process with code 1. -/
theorem listen_error_is_fatal_witness :
    (Start (NewAPI (lit "localhost") 8080) (⟨none, none, ()⟩ : World Unit)
        (some ⟨lit "up"⟩) (some ⟨lit "up"⟩) []).pc = .inListenAndServe ∧
      (Start (NewAPI (lit "localhost") 8080) (⟨none, none, ()⟩ : World Unit)
        (some ⟨lit "up"⟩) (some ⟨lit "up"⟩)
        ([] ++ [.listenReturns (lit "bind: address already in use"), .fatalRuns])).exitCode =
        some 1 :=
  ⟨rfl, (listen_error_is_fatal (NewAPI (lit "localhost") 8080)
    (⟨none, none, ()⟩ : World Unit) (some ⟨lit "up"⟩) (some ⟨lit "up"⟩) []
    [.cancel, .selectDone] (lit "bind: address already in use") rfl).2.1⟩

/-- C7. In the endpoint table built by `NewAPI`, whatever the host and the port, a GET of
`/routes` goes through the metrics middleware, then the logging middleware, then `getRoutes`
(the metrics middleware is outermost), and a GET of `/healthz` or `/metrics` reaches its
handler through no middleware at all; the table has these three endpoints and no other. -/
theorem NewAPI_endpoint_table (host : GoString) (port : Int) :
    (NewAPI host port).router.endpoints =
        [(lit "GET", lit "/healthz", [], .getHealthz),
         (lit "GET", lit "/metrics", [], .promhttpHandler),
         (lit "GET", lit "/routes", [.metricsMiddleware, .loggingMiddleware], .getRoutes)] ∧
      (NewAPI host port).router.Match (lit "GET") (lit "/routes") =
        some (.wrapped .metricsMiddleware (.wrapped .loggingMiddleware (.base .getRoutes))) ∧
      (NewAPI host port).router.Match (lit "GET") (lit "/healthz") =
        some (.base .getHealthz) ∧
      (NewAPI host port).router.Match (lit "GET") (lit "/metrics") =
        some (.base .promhttpHandler) ∧
      (NewAPI host port).httpServer.Handler = (NewAPI host port).router := by
  have hrouter : (NewAPI host port).router = (NewAPI [] 0).router := rfl
  rw [hrouter]
  refine ⟨by decide, by decide, by decide, by decide, rfl⟩

/-- With fuel for the whole string the loop of `appendString` stops at the end of the
string, not for lack of fuel: more fuel changes nothing. -/
theorem appendStringLoop_fuel :
    ∀ (v : Encoder) (n m : Nat) (s : GoString), s.length ≤ n → s.length ≤ m →
      appendStringLoop v n s = appendStringLoop v m s := by
  intro v n
  induction n with
  | zero =>
    intro m s hn _
    have hs : s = [] := List.length_eq_zero.mp (by omega)
    subst hs
    cases m <;> rfl
  | succ n ih =>
    intro m s hn hm
    rcases s with _ | ⟨b, t⟩
    · cases m <;> rfl
    · simp only [List.length_cons] at hn hm
      obtain ⟨m, rfl⟩ : ∃ k, m = k + 1 := ⟨m - 1, by omega⟩
      have hdrop : ∀ k, (t.drop k).length ≤ t.length := fun k => by
        simp only [List.length_drop]; omega
      have hd := hdrop ((decodeRune (b :: t)).2 - 1)
      simp only [appendStringLoop]
      rw [ih m t (by omega) (by omega),
        ih m (t.drop ((decodeRune (b :: t)).2 - 1)) (by omega) (by omega)]

theorem hexVal_hexDigit (d : Nat) (hd : d < 16) : hexVal (hexDigit d) = some d := by
  interval_cases d <;> decide

theorem escapeByte_ne_nil (v : Encoder) (b : Nat) : 1 ≤ (escapeByte v b).length := by
  unfold escapeByte
  split_ifs <;> simp [lit, encodeRune]

theorem replacement_length (v : Encoder) : 1 ≤ v.replacement.length := by
  cases v <;> decide

theorem unquoteLoop_replacement (v : Encoder) (f : Nat) (X : GoString) :
    unquoteLoop (f + 1) (v.replacement ++ X) =
      (unquoteLoop f X).map (fun r => ([0xEF, 0xBF, 0xBD] ++ r.1, r.2)) := by
  have h : lit "\\ufffd" = [92, 117, 102, 102, 102, 100] := by decide
  have hg : getu4 102 102 102 100 = some 0xFFFD := by decide
  have he : encodeRune 0xFFFD = [0xEF, 0xBF, 0xBD] := by decide
  have hd : ∀ Y, decodeRune (0xEF :: 0xBF :: 0xBD :: Y) = (0xFFFD, 3) := by
    intro Y; simp [decodeRune]
  cases v
  · show unquoteLoop (f + 1) (lit "\\ufffd" ++ X) = _
    rw [h]
    simp [unquoteLoop, hg, unquoteRune, he]
  · show unquoteLoop (f + 1) (lit "\\ufffd" ++ X) = _
    rw [h]
    simp [unquoteLoop, hg, unquoteRune, he]
  · show unquoteLoop (f + 1) ([0xEF, 0xBF, 0xBD] ++ X) = _
    simp [unquoteLoop, hd, he]

theorem unquoteLoop_202x (f : Nat) (c : Nat) (hc : c = 0x2028 ∨ c = 0x2029) (X : GoString) :
    unquoteLoop (f + 1) (lit "\\u202" ++ [hexDigit (c % 16)] ++ X) =
      (unquoteLoop f X).map (fun r => (encodeRune c ++ r.1, r.2)) := by
  have h : lit "\\u202" = [92, 117, 50, 48, 50] := by decide
  rw [h]
  rcases hc with rfl | rfl
  · have hg : getu4 50 48 50 (hexDigit (0x2028 % 16)) = some 0x2028 := by decide
    simp [unquoteLoop, hg, unquoteRune]
  · have hg : getu4 50 48 50 (hexDigit (0x2029 % 16)) = some 0x2029 := by decide
    simp [unquoteLoop, hg, unquoteRune]

theorem unquoteLoop_escapeByte (v : Encoder) (f : Nat) (b : Nat) (hb : b < 0x80)
    (X : GoString) :
    unquoteLoop (f + 1) (escapeByte v b ++ X) =
      (unquoteLoop f X).map (fun r => (b :: r.1, r.2)) := by
  unfold escapeByte
  by_cases hs : htmlSafe b = true
  · rw [if_pos hs]
    simp only [htmlSafe, Bool.and_eq_true, decide_eq_true_eq, bne_iff_ne, ne_eq] at hs
    obtain ⟨⟨⟨⟨⟨⟨h1, h2⟩, h3⟩, h4⟩, h5⟩, h6⟩, h7⟩ := hs
    have h8 : ¬ b < 32 := by omega
    simp [unquoteLoop, h3, h7, h8, h2]
  · rw [if_neg hs]
    by_cases h1 : b = 92 ∨ b = 34
    · rw [if_pos h1]
      rcases h1 with rfl | rfl <;> simp [unquoteLoop]
    · rw [if_neg h1]
      by_cases h2 : b = 8 ∧ v.shortForms = true
      · rw [if_pos h2]
        obtain ⟨h2, _⟩ := h2
        subst h2; simp [unquoteLoop, lit, encodeRune]
      · rw [if_neg h2]
        by_cases h3 : b = 12 ∧ v.shortForms = true
        · rw [if_pos h3]
          obtain ⟨h3, _⟩ := h3
          subst h3; simp [unquoteLoop, lit, encodeRune]
        · rw [if_neg h3]
          by_cases h4 : b = 10
          · subst h4; simp [unquoteLoop, lit, encodeRune]
          · rw [if_neg h4]
            by_cases h5 : b = 13
            · subst h5; simp [unquoteLoop, lit, encodeRune]
            · rw [if_neg h5]
              by_cases h6 : b = 9
              · subst h6; simp [unquoteLoop, lit, encodeRune]
              · rw [if_neg h6]
                have hl : lit "\\u00" = [92, 117, 48, 48] := by decide
                have hg : getu4 48 48 (hexDigit (b / 16)) (hexDigit (b % 16)) = some b := by
                  unfold getu4
                  have h0 : hexVal 48 = some 0 := by decide
                  rw [h0, hexVal_hexDigit _ (by omega), hexVal_hexDigit _ (by omega)]
                  simp only [Option.some.injEq]
                  omega
                have hnot : ¬ (0xD800 ≤ b ∧ b < 0xE000) := by omega
                have he : encodeRune b = [b] := by simp [encodeRune, hb]
                rw [hl]
                simp only [List.cons_append, List.nil_append, unquoteLoop]
                simp [hg, unquoteRune, hnot, he]

theorem encodeRune_two (r : Nat) (h1 : 0x80 ≤ r) (h2 : r < 0x800) :
    encodeRune r = [0xC0 + r / 64, 0x80 + r % 64] := by
  have e1 : ¬ r < 0x80 := by omega
  unfold encodeRune
  rw [if_neg e1, if_pos h2]

theorem encodeRune_three (r : Nat) (h1 : 0x800 ≤ r) (h2 : r < 0x10000)
    (h3 : ¬ (0xD800 ≤ r ∧ r < 0xE000)) :
    encodeRune r = [0xE0 + r / 4096, 0x80 + (r / 64) % 64, 0x80 + r % 64] := by
  have e1 : ¬ r < 0x80 := by omega
  have e2 : ¬ r < 0x800 := by omega
  unfold encodeRune
  rw [if_neg e1, if_neg e2, if_neg h3, if_pos h2]

theorem encodeRune_four (r : Nat) (h1 : 0x10000 ≤ r) (h2 : r < 0x110000) :
    encodeRune r =
      [0xF0 + r / 262144, 0x80 + (r / 4096) % 64, 0x80 + (r / 64) % 64, 0x80 + r % 64] := by
  have e1 : ¬ r < 0x80 := by omega
  have e2 : ¬ r < 0x800 := by omega
  have e3 : ¬ (0xD800 ≤ r ∧ r < 0xE000) := by omega
  have e4 : ¬ r < 0x10000 := by omega
  unfold encodeRune
  rw [if_neg e1, if_neg e2, if_neg e3, if_neg e4, if_pos h2]

theorem decodeRune_two (b b1 : Nat) (t : GoString) (h0 : 0xC2 ≤ b ∧ b ≤ 0xDF)
    (h1 : 0x80 ≤ b1 ∧ b1 ≤ 0xBF) : RuneAt b (b1 :: t) := by
  have hd : ∀ Y, decodeRune (b :: b1 :: Y) = ((b - 0xC0) * 64 + (b1 - 0x80), 2) := by
    intro Y
    have : ¬ b < 0x80 := by omega
    simp [decodeRune, this, h0, h1]
  refine ⟨by rw [hd], by rw [hd]; simp, ?_, ?_⟩
  · rw [hd]
    show encodeRune _ = [b, b1]
    rw [encodeRune_two _ (by omega) (by omega)]
    have q0 : 0xC0 + ((b - 0xC0) * 64 + (b1 - 0x80)) / 64 = b := by omega
    have q1 : 0x80 + ((b - 0xC0) * 64 + (b1 - 0x80)) % 64 = b1 := by omega
    rw [q0, q1]
  · intro Y
    rw [hd]
    exact hd Y

theorem decodeRune_three (b b1 b2 : Nat) (t : GoString) (h0 : 0xE0 ≤ b ∧ b ≤ 0xEF)
    (h1 : (if b = 0xE0 then 0xA0 else 0x80) ≤ b1 ∧ b1 ≤ (if b = 0xED then 0x9F else 0xBF) ∧
      0x80 ≤ b2 ∧ b2 ≤ 0xBF) : RuneAt b (b1 :: b2 :: t) := by
  have hd : ∀ Y, decodeRune (b :: b1 :: b2 :: Y) =
      ((b - 0xE0) * 4096 + (b1 - 0x80) * 64 + (b2 - 0x80), 3) := by
    intro Y
    have n1 : ¬ b < 0x80 := by omega
    have n2 : ¬ (0xC2 ≤ b ∧ b ≤ 0xDF) := by omega
    simp only [decodeRune, n1, n2, h0, h1, if_true, if_false, and_self]
  have hlo : 0x80 ≤ b1 ∧ b1 ≤ 0xBF := by
    obtain ⟨ha, hb, _⟩ := h1
    split_ifs at ha hb <;> omega
  refine ⟨by rw [hd]; first | done | simp, by rw [hd]; simp, ?_, ?_⟩
  · rw [hd]
    obtain ⟨ha, hb, hc, hd2⟩ := h1
    have e2 : 0x800 ≤ (b - 0xE0) * 4096 + (b1 - 0x80) * 64 + (b2 - 0x80) := by
      split_ifs at ha hb <;> omega
    have e3 : ¬ (0xD800 ≤ (b - 0xE0) * 4096 + (b1 - 0x80) * 64 + (b2 - 0x80) ∧
        (b - 0xE0) * 4096 + (b1 - 0x80) * 64 + (b2 - 0x80) < 0xE000) := by
      split_ifs at ha hb <;> omega
    have e4 : (b - 0xE0) * 4096 + (b1 - 0x80) * 64 + (b2 - 0x80) < 0x10000 := by omega
    show encodeRune _ = [b, b1, b2]
    rw [encodeRune_three _ e2 e4 e3]
    have q0 : 0xE0 + ((b - 0xE0) * 4096 + (b1 - 0x80) * 64 + (b2 - 0x80)) / 4096 = b := by
      omega
    have q1 : 0x80 + ((b - 0xE0) * 4096 + (b1 - 0x80) * 64 + (b2 - 0x80)) / 64 % 64 =
        b1 := by omega
    have q2 : 0x80 + ((b - 0xE0) * 4096 + (b1 - 0x80) * 64 + (b2 - 0x80)) % 64 = b2 := by
      omega
    rw [q0, q1, q2]
  · intro Y
    rw [hd]
    exact hd Y

theorem decodeRune_four (b b1 b2 b3 : Nat) (t : GoString) (h0 : 0xF0 ≤ b ∧ b ≤ 0xF4)
    (h1 : (if b = 0xF0 then 0x90 else 0x80) ≤ b1 ∧ b1 ≤ (if b = 0xF4 then 0x8F else 0xBF) ∧
      0x80 ≤ b2 ∧ b2 ≤ 0xBF ∧ 0x80 ≤ b3 ∧ b3 ≤ 0xBF) :
    RuneAt b (b1 :: b2 :: b3 :: t) := by
  have hd : ∀ Y, decodeRune (b :: b1 :: b2 :: b3 :: Y) =
      ((b - 0xF0) * 262144 + (b1 - 0x80) * 4096 + (b2 - 0x80) * 64 + (b3 - 0x80), 4) := by
    intro Y
    have n1 : ¬ b < 0x80 := by omega
    have n2 : ¬ (0xC2 ≤ b ∧ b ≤ 0xDF) := by omega
    have n3 : ¬ (0xE0 ≤ b ∧ b ≤ 0xEF) := by omega
    simp only [decodeRune, n1, n2, n3, h0, h1, if_true, if_false, and_self]
  refine ⟨by rw [hd]; first | done | simp, by rw [hd]; simp, ?_, ?_⟩
  · rw [hd]
    obtain ⟨ha, hb, hc, hd2, he, hf⟩ := h1
    have e4 : 0x10000 ≤
        (b - 0xF0) * 262144 + (b1 - 0x80) * 4096 + (b2 - 0x80) * 64 + (b3 - 0x80) := by
      split_ifs at ha hb <;> omega
    have e5 : (b - 0xF0) * 262144 + (b1 - 0x80) * 4096 + (b2 - 0x80) * 64 + (b3 - 0x80) <
        0x110000 := by
      split_ifs at ha hb <;> omega
    show encodeRune _ = [b, b1, b2, b3]
    rw [encodeRune_four _ e4 e5]
    have q0 : 0xF0 + ((b - 0xF0) * 262144 + (b1 - 0x80) * 4096 + (b2 - 0x80) * 64 +
        (b3 - 0x80)) / 262144 = b := by split_ifs at ha hb <;> omega
    have q1 : 0x80 + ((b - 0xF0) * 262144 + (b1 - 0x80) * 4096 + (b2 - 0x80) * 64 +
        (b3 - 0x80)) / 4096 % 64 = b1 := by split_ifs at ha hb <;> omega
    have q2 : 0x80 + ((b - 0xF0) * 262144 + (b1 - 0x80) * 4096 + (b2 - 0x80) * 64 +
        (b3 - 0x80)) / 64 % 64 = b2 := by omega
    have q3 : 0x80 + ((b - 0xF0) * 262144 + (b1 - 0x80) * 4096 + (b2 - 0x80) * 64 +
        (b3 - 0x80)) % 64 = b3 := by omega
    rw [q0, q1, q2, q3]
  · intro Y
    rw [hd]
    exact hd Y

theorem decodeRune_valid (b : Nat) (t : GoString) (hb : ¬ b < 0x80)
    (hv : ¬ ((decodeRune (b :: t)).1 = 0xFFFD ∧ (decodeRune (b :: t)).2 = 1)) :
    RuneAt b t := by
  by_cases h2 : 0xC2 ≤ b ∧ b ≤ 0xDF
  · rcases t with _ | ⟨b1, t⟩
    · exact absurd (by simp [decodeRune, hb, h2]) hv
    · by_cases h1 : 0x80 ≤ b1 ∧ b1 ≤ 0xBF
      · exact decodeRune_two b b1 t h2 h1
      · exact absurd (by simp [decodeRune, hb, h2, h1]) hv
  · by_cases h3 : 0xE0 ≤ b ∧ b ≤ 0xEF
    · rcases t with _ | ⟨b1, _ | ⟨b2, t⟩⟩
      · exact absurd (by simp [decodeRune, hb, h2, h3]) hv
      · exact absurd (by simp [decodeRune, hb, h2, h3]) hv
      · by_cases h1 : (if b = 0xE0 then 0xA0 else 0x80) ≤ b1 ∧
            b1 ≤ (if b = 0xED then 0x9F else 0xBF) ∧ 0x80 ≤ b2 ∧ b2 ≤ 0xBF
        · exact decodeRune_three b b1 b2 t h3 h1
        · exact absurd (by simp only [decodeRune, hb, h2, h3, h1, if_true, if_false,
            and_self]) hv
    · by_cases h4 : 0xF0 ≤ b ∧ b ≤ 0xF4
      · rcases t with _ | ⟨b1, _ | ⟨b2, _ | ⟨b3, t⟩⟩⟩
        · exact absurd (by simp [decodeRune, hb, h2, h3, h4]) hv
        · exact absurd (by simp [decodeRune, hb, h2, h3, h4]) hv
        · exact absurd (by simp [decodeRune, hb, h2, h3, h4]) hv
        · by_cases h1 : (if b = 0xF0 then 0x90 else 0x80) ≤ b1 ∧
              b1 ≤ (if b = 0xF4 then 0x8F else 0xBF) ∧ 0x80 ≤ b2 ∧ b2 ≤ 0xBF ∧
              0x80 ≤ b3 ∧ b3 ≤ 0xBF
          · exact decodeRune_four b b1 b2 b3 t h4 h1
          · exact absurd (by simp only [decodeRune, hb, h2, h3, h4, h1, if_true, if_false,
              and_self]) hv
      · exact absurd (by simp only [decodeRune, hb, h2, h3, h4, if_true, if_false,
          and_self]) hv

theorem take_rune (b : Nat) (t : GoString) (h : RuneAt b t) :
    (b :: t).take (decodeRune (b :: t)).2 = b :: t.take ((decodeRune (b :: t)).2 - 1) := by
  obtain ⟨h2, _, _, _⟩ := h
  obtain ⟨k, hk⟩ : ∃ k, (decodeRune (b :: t)).2 = k + 1 :=
    ⟨(decodeRune (b :: t)).2 - 1, by omega⟩
  rw [hk]
  simp

theorem unquoteLoop_rune (f : Nat) (b : Nat) (t : GoString) (hb : ¬ b < 0x80)
    (h : RuneAt b t) (Y : GoString) :
    unquoteLoop (f + 1) ((b :: t).take (decodeRune (b :: t)).2 ++ Y) =
      (unquoteLoop f Y).map (fun r => ((b :: t).take (decodeRune (b :: t)).2 ++ r.1, r.2)) := by
  have hd := h.2.2.2 Y
  have he := h.2.2.1
  have hlen : (decodeRune (b :: t)).2 - 1 ≤ t.length := by
    have := h.2.1
    simp only [List.length_cons] at this
    omega
  rw [take_rune b t h] at hd
  conv_lhs => rw [take_rune b t h]
  have h34 : ¬ b = 34 := by omega
  have h92 : ¬ b = 92 := by omega
  have h32 : ¬ b < 32 := by omega
  have hb2 : ¬ b < 128 := hb
  simp only [List.cons_append] at hd ⊢
  simp only [unquoteLoop, h34, h92, h32, hb2, if_false]
  rw [hd, he]
  have hdrop : List.drop ((decodeRune (b :: t)).2 - 1)
      (List.take ((decodeRune (b :: t)).2 - 1) t ++ Y) = Y := by
    rw [List.drop_append_eq_append_drop, List.drop_of_length_le (by simp)]
    simp [List.length_take, Nat.min_eq_left hlen]
  rw [hdrop]

theorem unquoteLoop_appendStringLoop :
    ∀ (v : Encoder) (n : Nat) (s : GoString) (f : Nat) (X : GoString),
      s.length ≤ n → s.length < f →
      unquoteLoop f (appendStringLoop v n s ++ 34 :: X) = some (toValidUTF8Loop n s, X) := by
  intro v n
  induction n with
  | zero =>
    intro s f X hn hf
    have hs : s = [] := List.length_eq_zero.mp (by omega)
    subst hs
    obtain ⟨f, rfl⟩ : ∃ k, f = k + 1 := ⟨f - 1, by omega⟩
    simp [appendStringLoop, toValidUTF8Loop, unquoteLoop]
  | succ n ih =>
    intro s f X hn hf
    obtain ⟨f, rfl⟩ : ∃ k, f = k + 1 := ⟨f - 1, by omega⟩
    rcases s with _ | ⟨b, t⟩
    · simp [appendStringLoop, toValidUTF8Loop, unquoteLoop]
    · simp only [List.length_cons] at hn hf
      by_cases hb : b < 0x80
      · have h1 : appendStringLoop v (n + 1) (b :: t) =
            escapeByte v b ++ appendStringLoop v n t := by
          simp [appendStringLoop, hb]
        have h2 : toValidUTF8Loop (n + 1) (b :: t) = b :: toValidUTF8Loop n t := by
          simp [toValidUTF8Loop, hb]
        rw [h1, h2, List.append_assoc, unquoteLoop_escapeByte v f b hb,
          ih t f X (by omega) (by omega)]
        rfl
      · by_cases hv : (decodeRune (b :: t)).1 = 0xFFFD ∧ (decodeRune (b :: t)).2 = 1
        · have h1 : appendStringLoop v (n + 1) (b :: t) =
              v.replacement ++ appendStringLoop v n t := by
            simp only [appendStringLoop, hb, if_false, hv, and_self, if_true]
          have h2 : toValidUTF8Loop (n + 1) (b :: t) =
              [0xEF, 0xBF, 0xBD] ++ toValidUTF8Loop n t := by
            simp only [toValidUTF8Loop, hb, if_false, hv, and_self, if_true]
          rw [h1, h2, List.append_assoc, unquoteLoop_replacement v, ih t f X (by omega) (by omega)]
          rfl
        · have hr := decodeRune_valid b t hb hv
          have h2 : toValidUTF8Loop (n + 1) (b :: t) =
              (b :: t).take (decodeRune (b :: t)).2 ++
                toValidUTF8Loop n (t.drop ((decodeRune (b :: t)).2 - 1)) := by
            simp only [toValidUTF8Loop, hb, if_false, hv]
          have hlen : (t.drop ((decodeRune (b :: t)).2 - 1)).length ≤ t.length := by
            simp [List.length_drop]
          by_cases hc : (decodeRune (b :: t)).1 = 0x2028 ∨ (decodeRune (b :: t)).1 = 0x2029
          · have h1 : appendStringLoop v (n + 1) (b :: t) =
                lit "\\u202" ++ [hexDigit ((decodeRune (b :: t)).1 % 16)] ++
                  appendStringLoop v n (t.drop ((decodeRune (b :: t)).2 - 1)) := by
              simp only [appendStringLoop, hb, if_false, hv, hc, if_true]
            rw [h1, h2, List.append_assoc, unquoteLoop_202x f _ hc,
              ih _ f X (by omega) (by omega), ← hr.2.2.1]
            rfl
          · have h1 : appendStringLoop v (n + 1) (b :: t) =
                (b :: t).take (decodeRune (b :: t)).2 ++
                  appendStringLoop v n (t.drop ((decodeRune (b :: t)).2 - 1)) := by
              simp only [appendStringLoop, hb, if_false, hv, hc]
            rw [h1, h2, List.append_assoc, unquoteLoop_rune f b t hb hr,
              ih _ f X (by omega) (by omega)]
            rfl

theorem appendStringLoop_length :
    ∀ (v : Encoder) (n : Nat) (s : GoString), s.length ≤ n →
      s.length ≤ (appendStringLoop v n s).length := by
  intro v n
  induction n with
  | zero => intro s hn; omega
  | succ n ih =>
    intro s hn
    rcases s with _ | ⟨b, t⟩
    · simp
    · simp only [List.length_cons] at hn
      have hdrop : ∀ k, (t.drop k).length ≤ n := fun k => by
        simp only [List.length_drop]; omega
      by_cases hb : b < 0x80
      · have h1 : appendStringLoop v (n + 1) (b :: t) =
            escapeByte v b ++ appendStringLoop v n t := by
          simp [appendStringLoop, hb]
        rw [h1, List.length_append, List.length_cons]
        have := ih t (by omega)
        have := escapeByte_ne_nil v b
        omega
      · by_cases hv : (decodeRune (b :: t)).1 = 0xFFFD ∧ (decodeRune (b :: t)).2 = 1
        · have h1 : appendStringLoop v (n + 1) (b :: t) =
              v.replacement ++ appendStringLoop v n t := by
            simp only [appendStringLoop, hb, if_false, hv, and_self, if_true]
          rw [h1, List.length_append, List.length_cons]
          have := ih t (by omega)
          have := replacement_length v
          omega
        · have hr := decodeRune_valid b t hb hv
          have hih := ih (t.drop ((decodeRune (b :: t)).2 - 1)) (hdrop _)
          have hsz := hr.2.1
          simp only [List.length_cons, List.length_drop] at hih hsz ⊢
          by_cases hc : (decodeRune (b :: t)).1 = 0x2028 ∨ (decodeRune (b :: t)).1 = 0x2029
          · have h1 : appendStringLoop v (n + 1) (b :: t) =
                lit "\\u202" ++ [hexDigit ((decodeRune (b :: t)).1 % 16)] ++
                  appendStringLoop v n (t.drop ((decodeRune (b :: t)).2 - 1)) := by
              simp only [appendStringLoop, hb, if_false, hv, hc, if_true]
            have hsz3 : (decodeRune (b :: t)).2 ≤ 6 := by
              have := hr.2.2.1
              have hl := congrArg List.length this
              rw [List.length_take] at hl
              rcases hc with hc | hc <;> rw [hc] at hl <;>
                simp [encodeRune] at hl <;> omega
            rw [h1, List.length_append, List.length_append]
            have : (lit "\\u202").length = 5 := by decide
            simp only [List.length_cons, List.length_nil] at *
            omega
          · have h1 : appendStringLoop v (n + 1) (b :: t) =
                (b :: t).take (decodeRune (b :: t)).2 ++
                  appendStringLoop v n (t.drop ((decodeRune (b :: t)).2 - 1)) := by
              simp only [appendStringLoop, hb, if_false, hv, hc]
            rw [h1, List.length_append, List.length_take]
            simp only [List.length_cons]
            have hsz2 := hr.1
            generalize (decodeRune (b :: t)).2 = sz at hsz hih hsz2 ⊢
            generalize (appendStringLoop v n (List.drop (sz - 1) t)).length = d at hih ⊢
            rw [Nat.min_eq_left hsz]
            omega

/-- A JSON string written by `appendString` is read back as the string made valid UTF-8. -/
theorem decodeString_appendString (v : Encoder) (s X : GoString) :
    decodeString (appendString v s ++ X) = some (toValidUTF8 s, X) := by
  unfold appendString toValidUTF8
  simp only [List.cons_append, List.nil_append, List.append_assoc, decodeString]
  apply unquoteLoop_appendStringLoop
  · exact le_rfl
  · have := appendStringLoop_length v s.length s le_rfl
    simp only [List.length_append, List.length_cons]
    omega

theorem toValidUTF8Loop_of_valid :
    ∀ (n : Nat) (s : GoString), validStringLoop n s = true → s.length ≤ n →
      toValidUTF8Loop n s = s := by
  intro n
  induction n with
  | zero =>
    intro s _ hn
    have hs : s = [] := List.length_eq_zero.mp (by omega)
    subst hs
    rfl
  | succ n ih =>
    intro s hv hn
    rcases s with _ | ⟨b, t⟩
    · rfl
    · simp only [List.length_cons] at hn
      by_cases hb : b < 0x80
      · simp only [validStringLoop, hb, if_true] at hv
        simp only [toValidUTF8Loop, hb, if_true]
        rw [ih t hv (by omega)]
      · by_cases hi : (decodeRune (b :: t)).1 = 0xFFFD ∧ (decodeRune (b :: t)).2 = 1
        · simp [validStringLoop, hb, hi] at hv
        · simp only [validStringLoop, hb, if_false, hi] at hv
          simp only [toValidUTF8Loop, hb, if_false, hi]
          have hr := decodeRune_valid b t hb hi
          rw [ih _ hv (by simp only [List.length_drop]; omega), take_rune b t hr]
          simp

theorem toValidUTF8_of_valid (s : GoString) (h : ValidString s = true) : toValidUTF8 s = s :=
  toValidUTF8Loop_of_valid s.length s h le_rfl

theorem appendString_cons (v : Encoder) (s : GoString) :
    appendString v s = 34 :: (appendStringLoop v s.length s ++ [34]) := rfl

theorem jsonObject_cons (members : List GoString) :
    jsonObject members = 123 :: (joinComma members ++ [125]) := rfl

theorem stringMember_cons (v : Encoder) (p : GoString × GoString) :
    stringMember v p =
      34 :: (appendStringLoop v p.1.length p.1 ++ [34] ++ [58] ++ appendString v p.2) := by
  simp [stringMember, jsonMember, appendString]

theorem joinComma_length (xs : List GoString) (h : ∀ x ∈ xs, 1 ≤ x.length) :
    xs.length ≤ (joinComma xs).length := by
  induction xs with
  | nil => simp
  | cons x rest ih =>
    have hx := h x (List.mem_cons_self x rest)
    rcases rest with _ | ⟨y, rest⟩
    · simp only [joinComma, List.length_cons, List.length_nil]
      omega
    · have := ih (fun z hz => h z (List.mem_cons_of_mem x hz))
      simp only [joinComma, List.length_append, List.length_cons] at this ⊢
      omega

/-- The members of an object of strings are read back in their order. -/
theorem decodeStringMembers_marshal (v : Encoder) (p : GoString × GoString)
    (ps : List (GoString × GoString)) :
    ∀ (f : Nat) (X : GoString), ps.length < f →
      decodeStringMembers f (joinComma ((p :: ps).map (stringMember v)) ++ 125 :: X) =
        some ((p :: ps).map toValidMember, X) := by
  induction ps generalizing p with
  | nil =>
    intro f X hf
    obtain ⟨f, rfl⟩ : ∃ k, f = k + 1 := ⟨f - 1, by simp at hf; omega⟩
    have hj : joinComma ([p].map (stringMember v)) ++ 125 :: X =
        appendString v p.1 ++ (58 :: (appendString v p.2 ++ (125 :: X))) := by
      simp [joinComma, stringMember, jsonMember]
    rw [hj, decodeStringMembers]
    simp only [decodeString_appendString]
    rfl
  | cons q rest ih =>
    intro f X hf
    simp only [List.length_cons] at hf
    obtain ⟨f, rfl⟩ : ∃ k, f = k + 1 := ⟨f - 1, by omega⟩
    have hj : joinComma ((p :: q :: rest).map (stringMember v)) ++ 125 :: X =
        appendString v p.1 ++ (58 :: (appendString v p.2 ++
          (44 :: (joinComma ((q :: rest).map (stringMember v)) ++ 125 :: X)))) := by
      simp [joinComma, stringMember, jsonMember]
    rw [hj, decodeStringMembers]
    simp only [decodeString_appendString]
    rw [ih q f X (by omega)]
    rfl

/-- An object of strings written by the encoder is read back with its members in their
order, every string made valid UTF-8. -/
theorem decodeStringObject_marshal (v : Encoder) (ps : List (GoString × GoString))
    (X : GoString) :
    decodeStringObject (jsonObject (ps.map (stringMember v)) ++ X) =
      some (ps.map toValidMember, X) := by
  rcases ps with _ | ⟨p, ps⟩
  · rfl
  · have hlen : ps.length <
        (joinComma ((p :: ps).map (stringMember v)) ++ 125 :: X).length := by
      have := joinComma_length ((p :: ps).map (stringMember v)) (by
        intro x hx
        obtain ⟨q, _, rfl⟩ := List.mem_map.mp hx
        rw [stringMember_cons]
        simp)
      simp only [List.length_map, List.length_cons, List.length_append] at this ⊢
      omega
    have hdec := decodeStringMembers_marshal v p ps _ X hlen
    obtain ⟨R, hR⟩ :
        ∃ R, joinComma ((p :: ps).map (stringMember v)) ++ 125 :: X = 34 :: R := by
      refine ⟨(joinComma ((p :: ps).map (stringMember v)) ++ 125 :: X).tail, ?_⟩
      rcases ps with _ | ⟨q, ps⟩ <;> simp [joinComma, stringMember_cons]
    have hshape : jsonObject ((p :: ps).map (stringMember v)) ++ X =
        123 :: (joinComma ((p :: ps).map (stringMember v)) ++ 125 :: X) := by
      simp [jsonObject]
    rw [hshape]
    rw [hR] at hdec ⊢
    simp only [decodeStringObject, hdec]

/-- A string or an object of strings written by the encoder is read back. -/
theorem decodeValue_render (v : Encoder) (x : JsonValue) (X : GoString) :
    decodeValue (renderValue v x ++ X) = some (x.toValidUTF8, X) := by
  cases x with
  | str s =>
    have h := decodeString_appendString v s X
    simp only [renderValue, appendString_cons, List.cons_append] at h ⊢
    simp only [decodeValue, h]
    rfl
  | obj members =>
    have h := decodeStringObject_marshal v members X
    simp only [renderValue, jsonObject_cons, List.cons_append] at h ⊢
    simp only [decodeValue, h]
    rfl

theorem renderMember_length (v : Encoder) (p : GoString × JsonValue) :
    1 ≤ (renderMember v p).length := by
  simp [renderMember, jsonMember, appendString]

/-- The members of an object are read back in their order. -/
theorem decodeMembers_render (v : Encoder) (p : GoString × JsonValue)
    (ps : List (GoString × JsonValue)) :
    ∀ (f : Nat) (X : GoString), ps.length < f →
      decodeMembers f (joinComma ((p :: ps).map (renderMember v)) ++ 125 :: X) =
        some ((p :: ps).map (fun q => (toValidUTF8 q.1, q.2.toValidUTF8)), X) := by
  induction ps generalizing p with
  | nil =>
    intro f X hf
    obtain ⟨f, rfl⟩ : ∃ k, f = k + 1 := ⟨f - 1, by simp at hf; omega⟩
    have hj : joinComma ([p].map (renderMember v)) ++ 125 :: X =
        appendString v p.1 ++ (58 :: (renderValue v p.2 ++ (125 :: X))) := by
      simp [joinComma, renderMember, jsonMember]
    rw [hj, decodeMembers]
    simp only [decodeString_appendString, decodeValue_render]
    rfl
  | cons q rest ih =>
    intro f X hf
    simp only [List.length_cons] at hf
    obtain ⟨f, rfl⟩ : ∃ k, f = k + 1 := ⟨f - 1, by omega⟩
    have hj : joinComma ((p :: q :: rest).map (renderMember v)) ++ 125 :: X =
        appendString v p.1 ++ (58 :: (renderValue v p.2 ++
          (44 :: (joinComma ((q :: rest).map (renderMember v)) ++ 125 :: X)))) := by
      simp [joinComma, renderMember, jsonMember]
    rw [hj, decodeMembers]
    simp only [decodeString_appendString, decodeValue_render]
    rw [ih q f X (by omega)]
    rfl

/-- An object written by the encoder is read back with its members in their order, every
string made valid UTF-8. -/
theorem decodeObject_render (v : Encoder) (ps : List (GoString × JsonValue)) :
    decodeObject (jsonObject (ps.map (renderMember v))) =
      some (ps.map (fun q => (toValidUTF8 q.1, q.2.toValidUTF8))) := by
  rcases ps with _ | ⟨p, ps⟩
  · rfl
  · have hlen : ps.length <
        (joinComma ((p :: ps).map (renderMember v)) ++ [125]).length := by
      have := joinComma_length ((p :: ps).map (renderMember v)) (by
        intro x hx
        obtain ⟨q, _, rfl⟩ := List.mem_map.mp hx
        exact renderMember_length v q)
      simp only [List.length_map, List.length_cons, List.length_append] at this ⊢
      omega
    have hdec := decodeMembers_render v p ps _ [] hlen
    obtain ⟨R, hR⟩ : ∃ R, joinComma ((p :: ps).map (renderMember v)) ++ [125] = 34 :: R := by
      refine ⟨(joinComma ((p :: ps).map (renderMember v)) ++ [125]).tail, ?_⟩
      rcases ps with _ | ⟨q, ps⟩ <;>
        simp [joinComma, renderMember, jsonMember, appendString_cons]
    rw [jsonObject_cons]
    rw [hR] at hdec ⊢
    simp only [decodeObject, hdec]


/-- An entry written by `marshalMapping` is read back with its strings made valid UTF-8. -/
theorem decodeMapping_marshalMapping (v : Encoder) (e : Mapping) (X : GoString) :
    decodeMapping (marshalMapping v e ++ X) = some (e.toValidUTF8, X) := by
  have hhost : toValidUTF8 (lit "host") = lit "host" := by decide
  have htarget : toValidUTF8 (lit "target") = lit "target" := by decide
  have hne : lit "target" ≠ lit "host" := by decide
  have h := decodeStringObject_marshal v [(lit "host", e.host), (lit "target", e.target)] X
  simp only [List.map_cons, List.map_nil] at h
  simp only [decodeMapping, marshalMapping, h, toValidMember, hhost, htarget,
    Mapping.ofMembers, List.foldl_cons, List.foldl_nil, Mapping.setMember, if_true, hne,
    if_false, Option.map_some', Mapping.toValidUTF8]

/-- The elements written by `marshalMappings` are read back. -/
theorem decodeElements_marshal (v : Encoder) (e : Mapping) (m : List Mapping) :
    ∀ (f : Nat) (X : GoString), m.length < f →
      decodeElements f (joinComma ((e :: m).map (marshalMapping v)) ++ 93 :: X) =
        some ((e :: m).map Mapping.toValidUTF8, X) := by
  induction m generalizing e with
  | nil =>
    intro f X hf
    obtain ⟨f, rfl⟩ : ∃ k, f = k + 1 := ⟨f - 1, by simp at hf; omega⟩
    simp [joinComma, decodeElements, decodeMapping_marshalMapping]
  | cons e2 rest ih =>
    intro f X hf
    simp only [List.length_cons] at hf
    obtain ⟨f, rfl⟩ : ∃ k, f = k + 1 := ⟨f - 1, by omega⟩
    have hj : joinComma ((e :: e2 :: rest).map (marshalMapping v)) ++ 93 :: X =
        marshalMapping v e ++
          (44 :: (joinComma ((e2 :: rest).map (marshalMapping v)) ++ 93 :: X)) := by
      simp [joinComma]
    rw [hj, decodeElements]
    simp only [decodeMapping_marshalMapping]
    rw [ih e2 f X (by omega)]
    rfl

/-- The text `marshalMappings` writes for a routing table is read back by
`UnmarshalMappings` as the table with every string made valid UTF-8. -/
theorem UnmarshalMappings_marshalMappings (v : Encoder) (m : RouteMapping) :
    UnmarshalMappings (marshalMappings v m) = some (m.map (List.map Mapping.toValidUTF8)) := by
  rcases m with _ | _ | ⟨e, m⟩
  · rfl
  · rfl
  · have hm : marshalMappings v (some (e :: m)) =
        91 :: (joinComma ((e :: m).map (marshalMapping v)) ++ [93]) := by
      simp [marshalMappings]
    obtain ⟨R, hR⟩ :
        ∃ R, joinComma ((e :: m).map (marshalMapping v)) ++ [93] = 123 :: R := by
      refine ⟨(joinComma ((e :: m).map (marshalMapping v)) ++ [93]).tail, ?_⟩
      rcases m with _ | ⟨e2, m⟩ <;>
        simp [joinComma, marshalMapping, jsonObject]
    have hlen : m.length < (joinComma ((e :: m).map (marshalMapping v)) ++ [93]).length := by
      have := joinComma_length ((e :: m).map (marshalMapping v)) (by
        intro x hx
        obtain ⟨q, _, rfl⟩ := List.mem_map.mp hx
        simp [marshalMapping, jsonObject])
      simp only [List.length_map, List.length_cons, List.length_append,
        List.length_nil] at this ⊢
      omega
    have hdec := decodeElements_marshal v e m _ [] hlen
    rw [hm]
    rw [hR] at hdec ⊢
    simp only [UnmarshalMappings, hdec]
    rfl

/-- The table is read back as it is when all its strings are valid UTF-8. -/
theorem map_toValidUTF8_of_valid (m : List Mapping)
    (hvalid : ∀ e ∈ m, ValidString e.host = true ∧ ValidString e.target = true) :
    m.map Mapping.toValidUTF8 = m := by
  induction m with
  | nil => rfl
  | cons e rest ih =>
    have he := hvalid e (List.mem_cons_self e rest)
    rw [List.map_cons, ih (fun x hx => hvalid x (List.mem_cons_of_mem e hx))]
    rcases e with ⟨host, target⟩
    simp only [Mapping.toValidUTF8, toValidUTF8_of_valid _ he.1, toValidUTF8_of_valid _ he.2]

/-- The events after the call of `Start` leave the world as the call made it. -/
theorem step_world {M : Type} (p : Proc M) (e : Event) : (p.step e).world = p.world := by
  unfold Proc.step
  cases p.exitCode with
  | some code => rfl
  | none =>
    cases e <;> simp only [] <;> (try split) <;> (try split) <;> rfl

theorem run_world {M : Type} (events : List Event) :
    ∀ (p : Proc M), (p.run events).world = p.world := by
  induction events with
  | nil => intro p; rfl
  | cons e rest ih =>
    intro p
    show ((p.step e).run rest).world = p.world
    rw [ih, step_world]

theorem Start_world {M : Type} (api : API) (w : World M) (k8s : Option K8S)
    (server : Option Server) (events : List Event) :
    (Start api w k8s server events).world = { w with k := k8s, s := server } :=
  run_world events _

/-- The encoding of the map `details`: the member `k8s`, then the member `server`. -/
theorem marshalMap_healthzDetails (v : Encoder) (a b : GoString) :
    marshalMap v (healthzDetails a b) =
      jsonObject [stringMember v (lit "k8s", a), stringMember v (lit "server", b)] := by
  have hsort : sortKeys [lit "k8s", lit "server"] = [lit "k8s", lit "server"] := by decide
  unfold marshalMap
  rw [healthzDetails_keys, hsort]
  simp only [List.map_cons, List.map_nil, healthzDetails_get_k8s, healthzDetails_get_server]

/-- The response of `getHealthz` with the encoder of `encoding/json`, once `Start` has
stored the statuses `a` and `b`. -/
theorem respond_getHealthz_Marshal {M : Type} (v : Encoder) (range : GoMap → List GoString)
    (hrange : RangeOrder range) (api : API) (w : World M) (a b : GoString) :
    respond (getHealthz (Marshal v) range) (Start api w (some ⟨a⟩) (some ⟨b⟩) []).world =
      some ⟨if a = lit "up" ∧ b = lit "up" then 200 else 503,
        jsonObject ([(lit "status",
            JsonValue.str (if a = lit "up" ∧ b = lit "up" then lit "up" else lit "down")),
          (lit "details", JsonValue.obj [(lit "k8s", a), (lit "server", b)])].map
            (renderMember v))⟩ := by
  rw [respond_getHealthz (Marshal v) range _ ⟨a⟩ ⟨b⟩ rfl rfl]
  have hm : Marshal v (healthzValue range a b) =
      .ok (marshalHealthz v (healthzValue range a b)) := rfl
  have hd : (healthzValue range a b).Details = healthzDetails a b := rfl
  simp only [hm]
  unfold marshalHealthz
  rw [healthzValue_Status range hrange, hd, marshalMap_healthzDetails]
  by_cases h : a = lit "up" ∧ b = lit "up"
  · simp only [if_pos h, if_neg lit_up_ne_down]
    rfl
  · simp only [if_neg h, if_true]
    rfl

/-- C3, as stated, fails. The watcher reports the one byte `0xFF`, which is no UTF-8, and
the dispatch server `"up"`: with each of the encoders the answer is 503 and the member `k8s`
of `details` in the body is U+FFFD, not the status of the watcher. -/
theorem getHealthz_body_counterexample :
    (respond (getHealthz (Marshal .go121) GoMap.keys) invalidStatusWorld).map
        (fun r => (r.code, decodeObject r.body)) =
      some (503, some [(lit "status", .str (lit "down")),
        (lit "details", .obj [(lit "k8s", [0xEF, 0xBF, 0xBD]), (lit "server", lit "up")])]) ∧
    (respond (getHealthz (Marshal .go122) GoMap.keys) invalidStatusWorld).map
        (fun r => (r.code, decodeObject r.body)) =
      some (503, some [(lit "status", .str (lit "down")),
        (lit "details", .obj [(lit "k8s", [0xEF, 0xBF, 0xBD]), (lit "server", lit "up")])]) ∧
    (respond (getHealthz (Marshal .jsonv2) GoMap.keys) invalidStatusWorld).map
        (fun r => (r.code, decodeObject r.body)) =
      some (503, some [(lit "status", .str (lit "down")),
        (lit "details", .obj [(lit "k8s", [0xEF, 0xBF, 0xBD]), (lit "server", lit "up")])]) ∧
    invalidStatusWorld.k = some ⟨[0xFF]⟩ ∧
    ([0xEF, 0xBF, 0xBD] : GoString) ≠ [0xFF] := by
  refine ⟨by decide, by decide, by decide, rfl, by decide⟩

/-- C3, amended. For every watcher status `a` and dispatch status `b` that are valid UTF-8
and that `Start` has stored in `k` and `s`, with each of the encoders, the body `getHealthz`
writes is a JSON object whose first member is `status`, the composite verdict, and whose
second member is `details`, an object with exactly the two members `k8s`, which is `a`, and
`server`, which is `b`, in this order; for `a = "up"` and `b = "down"` the answer is 503 with
the body `{"status":"down","details":{"k8s":"up","server":"down"}}`. -/
theorem getHealthz_body {M : Type} (v : Encoder) (range : GoMap → List GoString)
    (hrange : RangeOrder range) (api : API) (w : World M) (a b : GoString)
    (ha : ValidString a = true) (hb : ValidString b = true) :
    (∃ body,
        respond (getHealthz (Marshal v) range)
            (Start api w (some ⟨a⟩) (some ⟨b⟩) []).world =
          some ⟨if a = lit "up" ∧ b = lit "up" then 200 else 503, body⟩ ∧
        decodeObject body =
          some [(lit "status",
              .str (if a = lit "up" ∧ b = lit "up" then lit "up" else lit "down")),
            (lit "details", .obj [(lit "k8s", a), (lit "server", b)])]) ∧
      respond (getHealthz (Marshal v) range)
          (Start api w (some ⟨lit "up"⟩) (some ⟨lit "down"⟩) []).world =
        some ⟨503, lit ("\x7b\"status\":\"down\",\"details\":" ++
          "\x7b\"k8s\":\"up\",\"server\":\"down\"\x7d\x7d")⟩ := by
  refine ⟨⟨_, respond_getHealthz_Marshal v range hrange api w a b, ?_⟩, ?_⟩
  · rw [decodeObject_render]
    have h1 : toValidUTF8 (lit "status") = lit "status" := by decide
    have h2 : toValidUTF8 (lit "details") = lit "details" := by decide
    have h3 : toValidUTF8 (lit "k8s") = lit "k8s" := by decide
    have h4 : toValidUTF8 (lit "server") = lit "server" := by decide
    have h5 : toValidUTF8 (lit "up") = lit "up" := by decide
    have h6 : toValidUTF8 (lit "down") = lit "down" := by decide
    have h7 : toValidUTF8 (if a = lit "up" ∧ b = lit "up" then lit "up" else lit "down") =
        (if a = lit "up" ∧ b = lit "up" then lit "up" else lit "down") := by
      split
      · exact h5
      · exact h6
    simp only [List.map_cons, List.map_nil, JsonValue.toValidUTF8, toValidMember, h1, h2, h3,
      h4, h7, toValidUTF8_of_valid a ha, toValidUTF8_of_valid b hb]
  · rw [respond_getHealthz_Marshal v range hrange]
    cases v <;> decide

/-- C3, amended, with the keys enumerated as stored and the encoder as of Go 1.22: the
answer for `"up"` and `"down"`, and the object its body stands for. -/
theorem getHealthz_body_witness :
    RangeOrder GoMap.keys ∧ ValidString (lit "up") = true ∧ ValidString (lit "down") = true ∧
      respond (getHealthz (Marshal .go122) GoMap.keys)
          (Start (NewAPI (lit "localhost") 8080) (⟨none, none, ()⟩ : World Unit)
            (some ⟨lit "up"⟩) (some ⟨lit "down"⟩) []).world =
        some ⟨503, lit ("\x7b\"status\":\"down\",\"details\":" ++
          "\x7b\"k8s\":\"up\",\"server\":\"down\"\x7d\x7d")⟩ ∧
      decodeObject (lit ("\x7b\"status\":\"down\",\"details\":" ++
          "\x7b\"k8s\":\"up\",\"server\":\"down\"\x7d\x7d")) =
        some [(lit "status", .str (lit "down")),
          (lit "details", .obj [(lit "k8s", lit "up"), (lit "server", lit "down")])] :=
  ⟨rangeOrder_keys, by decide, by decide,
    (getHealthz_body .go122 GoMap.keys rangeOrder_keys (NewAPI (lit "localhost") 8080)
      (⟨none, none, ()⟩ : World Unit) (lit "up") (lit "down") (by decide) (by decide)).2,
    by decide⟩

/-- C4, as stated, fails. The table with the one entry whose host is the one byte `0xFF`,
which is no UTF-8, is encoded without an error by each of the encoders and `getRoutes`
answers 200, but the body decodes to the entry whose host is U+FFFD, not to the entry of
the table. -/
theorem getRoutes_roundtrip_counterexample :
    (respond (getRoutes (MarshalMappings .go121)) invalidHostWorld).map
        (fun r => (r.code, UnmarshalMappings r.body)) =
      some (200, some (some [⟨[0xEF, 0xBF, 0xBD], lit "10.0.0.1:25565"⟩])) ∧
    (respond (getRoutes (MarshalMappings .go122)) invalidHostWorld).map
        (fun r => (r.code, UnmarshalMappings r.body)) =
      some (200, some (some [⟨[0xEF, 0xBF, 0xBD], lit "10.0.0.1:25565"⟩])) ∧
    (respond (getRoutes (MarshalMappings .jsonv2)) invalidHostWorld).map
        (fun r => (r.code, UnmarshalMappings r.body)) =
      some (200, some (some [⟨[0xEF, 0xBF, 0xBD], lit "10.0.0.1:25565"⟩])) ∧
    GetMappings invalidHostWorld = some [⟨[0xFF], lit "10.0.0.1:25565"⟩] ∧
    (some [⟨[0xEF, 0xBF, 0xBD], lit "10.0.0.1:25565"⟩] : RouteMapping) ≠
      some [⟨[0xFF], lit "10.0.0.1:25565"⟩] := by
  refine ⟨by decide, by decide, by decide, rfl, by decide⟩

/-- C4, amended. For every routing table that the dispatch collaborator reports once `Start`
has run, whose hosts and targets are valid UTF-8, and for every encoder that succeeds,
`getRoutes` answers 200 with the bytes the encoder returns; with each of the encoders of
`encoding/json` the body is the JSON encoding of the table and decodes to the table itself;
the table of the example is written as the JSON array with its one entry. -/
theorem getRoutes_roundtrip (v : Encoder) (api : API) (w : World RouteMapping)
    (k8s : Option K8S) (server : Option Server) (events : List Event)
    (hvalid : ∀ e ∈ (GetMappings (Start api w k8s server events).world).entries,
      ValidString e.host = true ∧ ValidString e.target = true) :
    (∀ (marshal : RouteMapping → Except GoError GoString) (bytes : GoString),
        marshal (GetMappings (Start api w k8s server events).world) = .ok bytes →
          respond (getRoutes marshal) (Start api w k8s server events).world =
            some ⟨200, bytes⟩) ∧
      respond (getRoutes (MarshalMappings v)) (Start api w k8s server events).world =
        some ⟨200, marshalMappings v (GetMappings (Start api w k8s server events).world)⟩ ∧
      UnmarshalMappings
          (marshalMappings v (GetMappings (Start api w k8s server events).world)) =
        some (GetMappings (Start api w k8s server events).world) ∧
      marshalMappings v exampleTable =
        lit "[\x7b\"host\":\"a.example.com\",\"target\":\"10.0.0.1:25565\"\x7d]" := by
  refine ⟨?_, ?_, ?_, by cases v <;> decide⟩
  · intro marshal bytes hok
    rw [respond_getRoutes, hok]
  · rw [respond_getRoutes]
    rfl
  · rw [UnmarshalMappings_marshalMappings]
    generalize GetMappings (Start api w k8s server events).world = m at hvalid
    rcases m with _ | l
    · rfl
    · simp only [Option.map_some']
      rw [map_toValidUTF8_of_valid l hvalid]

/-- C4, amended, at the table of the example, after `Start` is called and the listener is
bound: the answer is 200 with the JSON array of the one entry, which decodes to the table. -/
theorem getRoutes_roundtrip_witness :
    (∀ e ∈ (GetMappings (Start (NewAPI (lit "localhost") 8080) ⟨none, none, exampleTable⟩
          (some ⟨lit "up"⟩) (some ⟨lit "up"⟩) [.bound]).world).entries,
        ValidString e.host = true ∧ ValidString e.target = true) ∧
      respond (getRoutes (MarshalMappings .go122))
          (Start (NewAPI (lit "localhost") 8080) ⟨none, none, exampleTable⟩
            (some ⟨lit "up"⟩) (some ⟨lit "up"⟩) [.bound]).world =
        some ⟨200,
          lit "[\x7b\"host\":\"a.example.com\",\"target\":\"10.0.0.1:25565\"\x7d]"⟩ ∧
      UnmarshalMappings
          (lit "[\x7b\"host\":\"a.example.com\",\"target\":\"10.0.0.1:25565\"\x7d]") =
        some exampleTable :=
  ⟨by decide,
    (getRoutes_roundtrip .go122 (NewAPI (lit "localhost") 8080) ⟨none, none, exampleTable⟩
      (some ⟨lit "up"⟩) (some ⟨lit "up"⟩) [.bound] (by decide)).2.1.trans (by decide),
    by decide⟩

/-- The method `Start` has returned only if the context is cancelled, and then the server is
closed. -/
theorem Start_returned_only_when_cancelled {M : Type} (api : API) (w : World M)
    (k8s : Option K8S) (server : Option Server) (events : List Event) :
    (Start api w k8s server events).pc = .returned →
      (Start api w k8s server events).ctxDone = true ∧
        (Start api w k8s server events).closed = true := by
  intro hpc
  have hinv := (inv_run events (inv_enter api w k8s server) :
    ((Start.enter api w k8s server).run events).Inv api).2
  unfold Start at hpc ⊢
  rw [hpc] at hinv
  exact ⟨hinv.2.2.1, hinv.2.2.2⟩

end Api
